import Mathlib

/-!
Verification development for the Glass-Portfolio agent engine
(`src/server/resources/engine.ts`, third revision, together with the
`GoogleCalendarService` capability provider).  The TypeScript source is
embedded shallowly: pure functions become Lean functions, the stateful
agent loop becomes explicit state passing, external collaborators
(OpenAI completion service, Google calendar client, `JSON.parse`,
`Date`/locale rendering) become parameters collected in an `Env` record,
and JavaScript exceptions become `Except`.
-/

namespace GlassEngine

/-! ## A small model of the JavaScript regexes built by the engine

`replaceVariable` constructs `new RegExp("\\$" + variable, "g")`.  For
pattern strings made of backslash escapes, literal characters and the
`$` input-end assertion (the only constructs such pattern strings can
contain here), ECMAScript matching is embedded directly: an escape
`\c` yields the literal character `c`, a bare `$` is an assertion that
holds exactly at the end of the input, and any other character is a
literal. -/

inductive RTok where
  | lit (c : Char)
  | endAnchor
deriving DecidableEq

/-- Parse a JavaScript pattern string (as passed to `new RegExp`) into
tokens: `\c` is an escaped literal, a bare `$` the end assertion. -/
def parsePat : List Char → List RTok
  | [] => []
  | '\\' :: c :: rest => RTok.lit c :: parsePat rest
  | '$' :: rest => RTok.endAnchor :: parsePat rest
  | c :: rest => RTok.lit c :: parsePat rest

/-- Try to match the token list at the head of `s`; returns the number
of characters consumed on success (assertions consume nothing). -/
def matchToks : List RTok → List Char → Option Nat
  | [], _ => some 0
  | RTok.lit c :: ts, d :: rest =>
      if c = d then (matchToks ts rest).map (· + 1) else none
  | RTok.lit _ :: _, [] => none
  | RTok.endAnchor :: ts, [] => matchToks ts []
  | RTok.endAnchor :: _, _ :: _ => none

/-- Global regex replace (the `g` flag): scan left to right, replace
every match by `repl`, resume after the matched text (advancing one
character after an empty match, as ECMAScript does). -/
def replaceScan (ts : List RTok) (repl : List Char) : List Char → List Char
  | [] =>
      match matchToks ts [] with
      | some _ => repl
      | none => []
  | c :: rest =>
      match matchToks ts (c :: rest) with
      | some 0 => repl ++ c :: replaceScan ts repl rest
      | some (k + 1) =>
          -- a nonempty match consumed `c` plus `k` characters of `rest`
          repl ++ replaceScan ts repl (rest.drop k)
      | none => c :: replaceScan ts repl rest
termination_by l => l.length
decreasing_by
  all_goals simp only [List.length_cons, List.length_drop]
  all_goals omega

/-- Embedding of `engine.replaceVariable(text, variable, dynamicValue)`:
`text.replace(new RegExp("\\$" + variable, "g"), () => dynamicValue || "")`. -/
def replaceVariable (text varName dynamicValue : String) : String :=
  let pat := '\\' :: '$' :: varName.data
  let repl := if dynamicValue = "" then "" else dynamicValue
  String.mk (replaceScan (parsePat pat) repl.data text.data)

/-! ## JavaScript values

`JSON.parse` results and the argument objects handed to the capability
providers are JavaScript values; `undefined` stands for `undefined` (a
missing object property). -/

inductive Json where
  | null
  | undefined
  | bool (b : Bool)
  | num (n : Int)
  | str (s : String)
  | arr (elems : List Json)
  | obj (fields : List (String × Json))

/-- Property access `j[key]` on an object, totalised: a missing key is
`undefined`. -/
def Json.getField (j : Json) (key : String) : Json :=
  match j with
  | .obj fs =>
      match fs.find? (fun p => p.1 = key) with
      | some p => p.2
      | none => .undefined
  | _ => .undefined

/-- Values on which JavaScript member access throws a `TypeError`. -/
def Json.nullish : Json → Bool
  | .null => true
  | .undefined => true
  | _ => false

/-- Member access `j.key` as the engine performs it on parsed tool
arguments: throws on `null`/`undefined`, yields `undefined` for a
missing property or a primitive base. -/
def Json.getMember (j : Json) (key : String) : Except String Json :=
  if j.nullish then
    .error ("TypeError: cannot read properties of " ++
      (match j with | .null => "null" | _ => "undefined") ++ " reading " ++ key)
  else
    .ok (j.getField key)

/-- JavaScript truthiness. -/
def Json.truthy : Json → Bool
  | .null => false
  | .undefined => false
  | .bool b => b
  | .num n => ¬ n = 0
  | .str s => ¬ s = ""
  | .arr _ => true
  | .obj _ => true

/-- String coercion as performed by a template literal. -/
def Json.toStr : Json → String
  | .null => "null"
  | .undefined => "undefined"
  | .bool b => if b then "true" else "false"
  | .num n => toString n
  | .str s => s
  | .arr xs => String.intercalate "," (xs.map joinElem)
  | .obj _ => "[object Object]"
where
  joinElem : Json → String
    | .null => ""
    | .undefined => ""
    | .bool b => if b then "true" else "false"
    | .num n => toString n
    | .str s => s
    | .arr _ => ""
    | .obj _ => "[object Object]"

/-- The JavaScript `a || b` idiom on values. -/
def jsOrJ (a b : Json) : Json := if a.truthy then a else b

/-- Destructuring default `{ x = d } = params`: the default applies
exactly when the property is `undefined`. -/
def jsDefault (v d : Json) : Json :=
  match v with
  | .undefined => d
  | _ => v

/-! ## Conversation messages

The entries the engine stores in its `input` array: role-tagged chat
messages (whose content is a plain string or a part array of
`input_file`/`input_text` parts), plus the `function_call` and
`function_call_output` entries of the responses API. -/

inductive Part where
  | inputFile (fileId : String)
  | inputText (text : String)
deriving DecidableEq

inductive MsgContent where
  | str (s : String)
  | parts (ps : List Part)
deriving DecidableEq

inductive Msg where
  | system (content : String)
  | user (content : MsgContent)
  | assistant (content : String)
  | functionCall (callId : String) (name : String) (arguments : String)
  | functionCallOutput (callId : String) (output : String)
deriving DecidableEq

/-- The `role` property; `function_call` entries carry none
(`undefined` in JavaScript). -/
def Msg.role : Msg → Option String
  | .system _ => some "system"
  | .user _ => some "user"
  | .assistant _ => some "assistant"
  | .functionCall _ _ _ => none
  | .functionCallOutput _ _ => none

def isSystemMsg (m : Msg) : Bool := m.role == some "system"

def isUserMsg (m : Msg) : Bool := m.role == some "user"

def isAssistantMsg (m : Msg) : Bool := m.role == some "assistant"

/-! ## File-marker extraction

`extractFileIdFromContent` matches `/\[File attached: ([^\]]+)\]/` and
the reconciler strips the marker with
`.replace(/\[File attached: [^\]]+\]\s*/, "")` (first occurrence).  The
marker pattern is literal text, a nonempty greedy run of non-`]`
characters — which matches up to the first following `]` — and the
closing bracket; `\s*` then eats following whitespace. -/

def markerHead : List Char :=
  ['[', 'F', 'i', 'l', 'e', ' ', 'a', 't', 't', 'a', 'c', 'h', 'e', 'd', ':', ' ']

/-- Strip a literal prefix, or fail. -/
def dropLit : List Char → List Char → Option (List Char)
  | [], cs => some cs
  | _ :: _, [] => none
  | l :: ls, c :: cs => if l = c then dropLit ls cs else none

/-- Match `[^\]]+\]` at the head: the nonempty capture and the
remainder after the closing bracket. -/
def splitCapture (cs : List Char) : Option (List Char × List Char) :=
  let cap := cs.takeWhile (fun c => ¬ c = ']')
  match cap, cs.dropWhile (fun c => ¬ c = ']') with
  | [], _ => none
  | _ :: _, ']' :: r => some (cap, r)
  | _ :: _, _ => none

/-- Match the whole marker at the head of `cs`. -/
def markerAt (cs : List Char) : Option (List Char × List Char) :=
  (dropLit markerHead cs).bind splitCapture

/-- Leftmost marker match: the text before it, the captured file id and
the text after the closing bracket. -/
def findMarkerSplit : List Char → Option (List Char × List Char × List Char)
  | [] => none
  | c :: rest =>
      match markerAt (c :: rest) with
      | some (cap, after) => some ([], cap, after)
      | none =>
          (findMarkerSplit rest).map (fun t => (c :: t.1, t.2.1, t.2.2))

/-- Embedding of `engine.extractFileIdFromContent(content)`. -/
def extractFileIdFromContent (content : String) : Option String :=
  (findMarkerSplit content.data).map (fun t => String.mk t.2.1)

/-- The `\s` character class (the whitespace forms relevant here). -/
def isJsSpace (c : Char) : Bool :=
  c = ' ' ∨ c = '\t' ∨ c = '\n' ∨ c = '\r' ∨ c = '\x0b' ∨ c = '\x0c' ∨ c = ' '

/-- Embedding of
`userInput.replace(/\[File attached: [^\]]+\]\s*/, "")`: remove the
first marker occurrence and the whitespace after it. -/
def stripMarker (s : String) : String :=
  match findMarkerSplit s.data with
  | none => s
  | some t => String.mk (t.1 ++ t.2.2.dropWhile isJsSpace)

/-- The `fileId || extractedFileId` idiom on the two optional ids. -/
def jsOrId (a b : Option String) : Option String :=
  match a with
  | some s => if s = "" then b else some s
  | none => b

/-! ## The conversation reconciliation step of `run`

One pass of the history-rewriting block at the top of the agent loop
(engine.ts lines 613-708 of the current revision), with the freshly
resolved system prompt passed in. -/

/-- Last index satisfying the predicate, mirroring
`input.findLastIndex(...)`. -/
def findLastIdx (p : α → Bool) : List α → Option Nat
  | [] => none
  | a :: as =>
      match findLastIdx p as with
      | some k => some (k + 1)
      | none => if p a then some 0 else none

def isInputText : Part → Bool
  | .inputText _ => true
  | .inputFile _ => false

/-- Update the text part of an existing part array in place, or push a
new text part when none exists. -/
def updatedParts (userText : String) (ps : List Part) : List Part :=
  match ps.findIdx? isInputText with
  | some t => ps.set t (Part.inputText userText)
  | none => ps ++ [Part.inputText userText]

/-- Rewrite the last user message for the incoming turn, given its old
form (the `if actualFileId / typeof content` ladder). -/
def updatedUserMsg (userText cleanUserInput : String)
    (actualFileId : Option String) (old : Msg) : Msg :=
  match actualFileId with
  | some fid =>
      Msg.user (MsgContent.parts [Part.inputFile fid, Part.inputText cleanUserInput])
  | none =>
      match old with
      | Msg.user (MsgContent.str _) => Msg.user (MsgContent.str userText)
      | Msg.user (MsgContent.parts ps) =>
          Msg.user (MsgContent.parts (updatedParts userText ps))
      | _ => Msg.user (MsgContent.str userText)

/-- The file id actually used: `fileId || extractedFileId`. -/
def actualIdOf (fileId : Option String) (userText : String) : Option String :=
  jsOrId fileId (extractFileIdFromContent userText)

/-- The visible text stored: marker stripped exactly when one was
extracted. -/
def cleanOf (userText : String) : String :=
  if (extractFileIdFromContent userText).isSome then stripMarker userText
  else userText

/-- The user message built for an empty history
(`actualFileId ? {parts} : {string}`). -/
def newUserMsg (userText : String) (actualFileId : Option String)
    (cleanUserInput : String) : Msg :=
  match actualFileId with
  | some fid =>
      Msg.user (MsgContent.parts
        [Part.inputFile fid, Part.inputText cleanUserInput])
  | none => Msg.user (MsgContent.str userText)

/-- The user message appended when a non-empty history has no user
entry: built from the raw text and the explicit `fileId` parameter only
(`fileId ? {parts} : {string}`, with JavaScript truthiness on
`fileId`). -/
def fallbackUserMsg (userText : String) (fileId : Option String) : Msg :=
  match fileId with
  | some fid =>
      if fid = "" then Msg.user (MsgContent.str userText)
      else Msg.user (MsgContent.parts
        [Part.inputFile fid, Part.inputText userText])
  | none => Msg.user (MsgContent.str userText)

/-- Embedding of the reconciliation step inside `run`. -/
def reconcile (finalPrompt userText : String) (fileId : Option String)
    (input : List Msg) : List Msg :=
  if input.isEmpty then
    [Msg.system finalPrompt,
      newUserMsg userText (actualIdOf fileId userText) (cleanOf userText)]
  else
    let inputR := Msg.system finalPrompt ::
      input.filter (fun m => ! isSystemMsg m)
    match findLastIdx isUserMsg inputR with
    | some idx =>
        inputR.set idx (updatedUserMsg userText (cleanOf userText)
          (actualIdOf fileId userText)
          (inputR.getD idx (Msg.user (MsgContent.str ""))))
    | none => inputR ++ [fallbackUserMsg userText fileId]

/-! ## The calendar capability provider

`GoogleCalendarService` wraps each operation of the raw Google calendar
client in `try/catch`, turning any thrown error into a `❌`-marked
result string.  The raw client and the `Date`/locale built-ins the
provider uses are external collaborators, modelled as functions supplied
in `CalendarClient` and `Env`; a thrown error is an `Except.error`
carrying the error message. -/

/-! Output items of one completion-service response
(`response.output`): `message` items carrying content parts,
`reasoning` items, `function_call` items, and any other item type the
classifier does not recognise. -/

inductive ContentPart where
  | outputText (text : String)
  | otherPart (kind : String)
deriving DecidableEq

inductive OutputItem where
  | message (content : List ContentPart)
  | reasoning
  | functionCall (callId : String) (name : String) (arguments : String)
  | otherItem (kind : String)
deriving DecidableEq

/-- Result data of a successful `events.insert` call. -/
structure InsertData where
  id : Json
  htmlLink : Json
  meetUri : Json

/-- One calendar event as returned by `events.list`, with the optional
chains `event.start?.dateTime` etc. flattened to (possibly `undefined`)
values. -/
structure GEvent where
  summary : Json := Json.undefined
  location : Json := Json.undefined
  description : Json := Json.undefined
  htmlLink : Json := Json.undefined
  startDateTime : Json := Json.undefined
  startDate : Json := Json.undefined
  endDateTime : Json := Json.undefined
  endDate : Json := Json.undefined

/-- The event resource built by `scheduleMeeting` (the fixed
`America/Sao_Paulo` timezone and the constant reminder overrides are
passed through to the external client unchanged and are not modelled as
data). -/
structure EventResource where
  summary : Json
  description : Json
  location : Json
  startDateTime : Json
  endDateTime : Json
  attendees : List Json

/-- The raw calendar client: each operation may throw. -/
structure CalendarClient where
  eventsInsert : EventResource → Except String InsertData
  eventsList : (timeMin timeMax maxResults : Json) → Except String (List GEvent)
  eventsDelete : (eventId : Json) → (sendUpdates : String) → Except String Unit

/-- External built-ins used by the engine and the provider:
`JSON.parse` (with `none` for a `SyntaxError` throw), the completion
service (the output items of the k-th call of this turn), the prompt
template file, the locale-rendered date/time pieces of
`getSaoPauloTodayInfo` at each iteration, and the `Date` conversions
used by the provider. -/
structure NowParts where
  weekDay : String
  day : String
  month : String
  year : String
  time : String

structure Env where
  jsonParse : String → Option Json
  client : CalendarClient
  responses : Nat → List OutputItem
  rawPrompt : String
  nowParts : Nat → NowParts
  nowISO : String
  isoOf : String → String
  localeFormat : String → String
  dateMinutes : Json → Int

/-- Embedding of `engine.getSaoPauloTodayInfo()`: the locale-rendered
pieces come from the environment, the sentence is built as in the
source. -/
def getSaoPauloTodayInfo (p : NowParts) : String :=
  "Hoje é " ++ p.weekDay ++ ", dia " ++ p.day ++ " de " ++ p.month ++
    " de " ++ p.year ++ ", horário atual: " ++ p.time ++ ", aqui em São Paulo."

/-- Embedding of `engine.getPortfolioInfo(portfolio)`. -/
def getPortfolioInfo (portfolio : Json) : String :=
  "Portfolio: " ++ portfolio.toStr

/-- Arguments object passed by the dispatcher to `scheduleMeeting`. -/
structure ScheduleParams where
  title : Json
  description : Json
  startDateTime : Json
  endDateTime : Json
  attendeeEmails : Json
  location : Json

/-- Embedding of `GoogleCalendarService.scheduleMeeting`. -/
def scheduleMeeting (client : CalendarClient) (p : ScheduleParams) : String :=
  let description := jsDefault p.description (Json.str "")
  let attendeeEmails := jsDefault p.attendeeEmails (Json.arr [])
  let location := jsDefault p.location (Json.str "")
  let emails := match attendeeEmails with | Json.arr xs => xs | _ => []
  let resource : EventResource :=
    { summary := p.title, description := description, location := location,
      startDateTime := p.startDateTime, endDateTime := p.endDateTime,
      attendees := emails }
  match client.eventsInsert resource with
  | .ok d =>
      let joined := String.intercalate ", " (emails.map Json.toStr)
      "✅ Meeting scheduled successfully!\n📅 Event ID: " ++ d.id.toStr ++
        "\n🔗 Calendar Link: " ++ d.htmlLink.toStr ++
        "\n📹 Meet Link: " ++
        (jsOrJ d.meetUri (Json.str "No meet link generated")).toStr ++
        "\n📧 Invitations sent to: " ++
        (if joined = "" then "No attendees" else joined)
  | .error m => "❌ Error scheduling meeting: " ++ m

/-- Arguments object passed by the dispatcher to `getUpcomingEvents`. -/
structure ListParams where
  maxResults : Json
  timeMin : Json
  timeMax : Json

/-- Per-event lines of the `getUpcomingEvents` success output. -/
def formatEvent (fmt : String → String) (i : Nat) (e : GEvent) : String :=
  let start := jsOrJ e.startDateTime e.startDate
  let endv := jsOrJ e.endDateTime e.endDate
  let startFormatted := fmt start.toStr
  let endFormatted := fmt endv.toStr
  toString (i + 1) ++ ". 📝 " ++ (jsOrJ e.summary (Json.str "No title")).toStr ++
    "\n" ++ "   ⏰ " ++ startFormatted ++ " - " ++ endFormatted ++ "\n" ++
    (if e.location.truthy then "   📍 " ++ e.location.toStr ++ "\n" else "") ++
    (if e.description.truthy then "   📄 " ++ e.description.toStr ++ "\n" else "") ++
    (if e.htmlLink.truthy then "   🔗 " ++ e.htmlLink.toStr ++ "\n" else "") ++
    "\n"

def formatEvents (fmt : String → String) : Nat → List GEvent → String
  | _, [] => ""
  | i, e :: es => formatEvent fmt i e ++ formatEvents fmt (i + 1) es

/-- Embedding of `GoogleCalendarService.getUpcomingEvents`. -/
def getUpcomingEvents (env : Env) (p : ListParams) : String :=
  let maxResults := jsDefault p.maxResults (Json.num 10)
  let timeMin := jsDefault p.timeMin (Json.str env.nowISO)
  match env.client.eventsList timeMin p.timeMax maxResults with
  | .ok events =>
      if events.length = 0 then "📅 No upcoming events found."
      else
        "📅 Upcoming Events (" ++ toString events.length ++ "):\n\n" ++
          formatEvents env.localeFormat 0 events
  | .error m => "❌ Error getting events: " ++ m

/-- Arguments object passed by the dispatcher to `findAvailableSlots`. -/
structure SlotsParams where
  date : Json
  duration : Json
  workingHoursStart : Json
  workingHoursEnd : Json

/-- `Number(...)` coercion of one `HH`/`MM` piece (integer-valued here;
non-numeric text, which would be `NaN` in JavaScript, is taken as 0). -/
def numPiece (s : String) : Int := (s.toInt?).getD 0

/-- `split(':')` to minutes-of-day, as in the provider. -/
def hmToMinutes (s : String) : Int :=
  let ps := s.splitOn ":"
  numPiece (ps.getD 0 "") * 60 + numPiece (ps.getD 1 "")

/-- `Math.floor(n / 60).toString().padStart(2, '0')` and the matching
minutes rendering. -/
def padTwo (n : Int) : String :=
  let s := toString n
  if s.length < 2 then "0" ++ s else s

def slotString (start dur : Int) : String :=
  padTwo (Int.fdiv start 60) ++ ":" ++ padTwo (Int.tmod start 60) ++ " - " ++
    padTwo (Int.fdiv (start + dur) 60) ++ ":" ++ padTwo (Int.tmod (start + dur) 60)

/-- The gap-scan over the listed events. -/
def slotScan (env : Env) (dur : Int) :
    List GEvent → (List String × Int) → List String × Int
  | [], acc => acc
  | e :: es, (slots, currentTime) =>
      let eventStartMin := env.dateMinutes (jsOrJ e.startDateTime e.startDate)
      let eventEndMin := env.dateMinutes (jsOrJ e.endDateTime e.endDate)
      let slots2 :=
        if currentTime + dur ≤ eventStartMin then
          slots ++ [slotString currentTime dur]
        else slots
      slotScan env dur es (slots2, max currentTime eventEndMin)

def numberSlots : Nat → List String → String
  | _, [] => ""
  | i, s :: ss => toString (i + 1) ++ ". " ++ s ++ "\n" ++ numberSlots (i + 1) ss

/-- Embedding of `GoogleCalendarService.findAvailableSlots`. -/
def findAvailableSlots (env : Env) (p : SlotsParams) : String :=
  let date := p.date
  let duration := match p.duration with | Json.num n => n | _ => 0
  let workingHoursStart := jsDefault p.workingHoursStart (Json.str "09:00")
  let workingHoursEnd := jsDefault p.workingHoursEnd (Json.str "18:00")
  let timeMin := Json.str (env.isoOf
    (date.toStr ++ "T" ++ workingHoursStart.toStr ++ ":00-03:00"))
  let timeMax := Json.str (env.isoOf
    (date.toStr ++ "T" ++ workingHoursEnd.toStr ++ ":00-03:00"))
  match env.client.eventsList timeMin timeMax Json.undefined with
  | .ok events =>
      let workStart := hmToMinutes workingHoursStart.toStr
      let workEnd := hmToMinutes workingHoursEnd.toStr
      let scanned := slotScan env duration events ([], workStart)
      let availableSlots :=
        if scanned.2 + duration ≤ workEnd then
          scanned.1 ++ [slotString scanned.2 duration]
        else scanned.1
      if availableSlots.length = 0 then
        "❌ No available slots found for " ++ date.toStr ++ " (" ++
          toString duration ++ " minutes duration)"
      else
        "🕐 Available time slots for " ++ date.toStr ++ " (" ++
          toString duration ++ " minutes each):\n\n" ++
          numberSlots 0 availableSlots
  | .error m => "❌ Error finding available slots: " ++ m

/-- Arguments object passed by the dispatcher to `cancelMeeting`. -/
structure CancelParams where
  eventId : Json
  sendUpdates : Json

/-- Embedding of `GoogleCalendarService.cancelMeeting`. -/
def cancelMeeting (client : CalendarClient) (p : CancelParams) : String :=
  let sendUpdates := jsDefault p.sendUpdates (Json.bool true)
  match client.eventsDelete p.eventId
      (if sendUpdates.truthy then "all" else "none") with
  | .ok _ => "✅ Meeting cancelled successfully! Event ID: " ++ p.eventId.toStr
  | .error m => "❌ Error cancelling meeting: " ++ m

/-! ## Response classification and tool dispatch

The body of the `for (const output of response.output)` loop, after the
pass that pushed the `function_call` entries.  Handlers return the list
of entries they append together with the updated `loopAgent` flag;
JavaScript throws are `Except.error`. -/

/-- The `switch (output.name)` tool registry of the current engine
revision. -/
def registeredTools : List String :=
  ["get_portfolio_info", "schedule_meeting", "get_upcoming_events",
   "find_available_slots", "cancel_meeting"]

/-- Dispatch a parsed tool call through the switch.  Member accesses on
the parsed arguments happen before each provider call and can throw
(only on a `null` arguments value); an unregistered name falls to the
default case. -/
def dispatch (env : Env) (name : String) (args : Json) : Except String String :=
  if name = "get_portfolio_info" then do
    let portfolio ← args.getMember "portfolio"
    .ok (getPortfolioInfo portfolio)
  else if name = "schedule_meeting" then do
    let title ← args.getMember "title"
    let description ← args.getMember "description"
    let startDateTime ← args.getMember "startDateTime"
    let endDateTime ← args.getMember "endDateTime"
    let attendeeEmails ← args.getMember "attendeeEmails"
    let location ← args.getMember "location"
    .ok (scheduleMeeting env.client
      { title := title, description := description,
        startDateTime := startDateTime, endDateTime := endDateTime,
        attendeeEmails := attendeeEmails, location := location })
  else if name = "get_upcoming_events" then do
    let maxResults ← args.getMember "maxResults"
    let timeMin ← args.getMember "timeMin"
    let timeMax ← args.getMember "timeMax"
    .ok (getUpcomingEvents env
      { maxResults := maxResults, timeMin := timeMin, timeMax := timeMax })
  else if name = "find_available_slots" then do
    let date ← args.getMember "date"
    let duration ← args.getMember "duration"
    let workingHoursStart ← args.getMember "workingHoursStart"
    let workingHoursEnd ← args.getMember "workingHoursEnd"
    .ok (findAvailableSlots env
      { date := date, duration := duration,
        workingHoursStart := workingHoursStart,
        workingHoursEnd := workingHoursEnd })
  else if name = "cancel_meeting" then do
    let eventId ← args.getMember "eventId"
    let sendUpdates ← args.getMember "sendUpdates"
    .ok (cancelMeeting env.client { eventId := eventId, sendUpdates := sendUpdates })
  else
    .ok ("ERROR: tool " ++ name ++ " not implemented.")

/-- Handle one output item: the entries appended and the updated
`loopAgent` flag.  A `message` item appends one assistant message per
`output_text` part and clears the flag if it had any; `reasoning` is
logged only; a `function_call` parses its arguments with `JSON.parse`
(a parse failure throws) and dispatches; an unrecognised item type
clears the flag. -/
def handleOutput (env : Env) (item : OutputItem) (loopAgent : Bool) :
    Except String (List Msg × Bool) :=
  match item with
  | .message content =>
      .ok (content.filterMap
            (fun c => match c with
              | .outputText t => some (Msg.assistant t)
              | .otherPart _ => none),
           if content.any (fun c => match c with
              | .outputText _ => true
              | .otherPart _ => false) then false else loopAgent)
  | .reasoning => .ok ([], loopAgent)
  | .functionCall callId name arguments =>
      match env.jsonParse arguments with
      | none => .error ("SyntaxError: Unexpected token in JSON at " ++ arguments)
      | some args =>
          (dispatch env name args).map
            (fun toolResult => ([Msg.functionCallOutput callId toolResult], loopAgent))
  | .otherItem _ => .ok ([], false)

/-- Process the whole item list in order, threading the flag and
concatenating the appended entries. -/
def handleOutputs (env : Env) : List OutputItem → Bool →
    Except String (List Msg × Bool)
  | [], loopAgent => .ok ([], loopAgent)
  | item :: rest, loopAgent =>
      match handleOutput env item loopAgent with
      | .error e => .error e
      | .ok r =>
          match handleOutputs env rest r.2 with
          | .error e => .error e
          | .ok r2 => .ok (r.1 ++ r2.1, r2.2)

/-- The `function_call` invocation entries pushed ahead of the handler
loop (`response.output.filter(type === 'function_call')`, appended in
emitted order). -/
def invocationEntries (items : List OutputItem) : List Msg :=
  items.filterMap
    (fun item => match item with
      | .functionCall callId name arguments =>
          some (Msg.functionCall callId name arguments)
      | _ => none)

/-- One response-processing step of `run`: push the invocation entries,
then run the handler loop. -/
def processResponse (env : Env) (input : List Msg) (loopAgent : Bool)
    (items : List OutputItem) : Except String (List Msg × Bool) :=
  (handleOutputs env items loopAgent).map
    (fun r => (input ++ invocationEntries items ++ r.1, r.2))

/-! ## The agent loop -/

def MAX_AGENT_LOOP : Nat := 3

/-- The `while (loopAgent && loopCounter < MAX_AGENT_LOOP)` loop.
Each iteration renders the prompt, reconciles the history, performs one
completion-service call (`env.responses loopCounter`, zero-based) and
processes the response.  Returns the outcome (the final history, or
the thrown error) together with the number of completion-service calls
performed. -/
def runLoop (env : Env) (userText : String) (fileId : Option String) :
    List Msg → Bool → Nat → Except String (List Msg) × Nat
  | input, loopAgent, loopCounter =>
    if h : loopAgent = true ∧ loopCounter < MAX_AGENT_LOOP then
      let dateTimeInfo := getSaoPauloTodayInfo (env.nowParts loopCounter)
      let finalPrompt := replaceVariable env.rawPrompt "$dateTime" dateTimeInfo
      let input1 := reconcile finalPrompt userText fileId input
      match processResponse env input1 loopAgent (env.responses loopCounter) with
      | .error e => (.error e, 1)
      | .ok r =>
          let rec1 := runLoop env userText fileId r.1 r.2 (loopCounter + 1)
          (rec1.1, rec1.2 + 1)
    else
      (.ok input, 0)
termination_by _ _ loopCounter => MAX_AGENT_LOOP - loopCounter
decreasing_by omega

/-- Embedding of `engine.run(userInput, input, fileId?)`. -/
def run (env : Env) (userInput : String) (input : List Msg)
    (fileId : Option String) : Except String (List Msg) × Nat :=
  runLoop env userInput fileId input true 0

/-! ## Helper lemmas about `findLastIdx` and message lists -/

/-- The current user turn: the last `user`-role entry of a history. -/
def lastUser (l : List Msg) : Option Msg := l.reverse.find? isUserMsg

/-! ## Ordering of invocations and results (C4) -/

def isInvocationEntry : Msg → Bool
  | .functionCall _ _ _ => true
  | _ => false

/-- Call ids of the tool-result entries of a history segment, in
order. -/
def resultCallIds (l : List Msg) : List String :=
  l.filterMap (fun m => match m with
    | .functionCallOutput callId _ => some callId
    | _ => none)

/-- Call ids of the `function_call` items of a response, in emitted
order. -/
def fcCallIds (items : List OutputItem) : List String :=
  items.filterMap (fun item => match item with
    | .functionCall callId _ _ => some callId
    | _ => none)

/-! ## Frame effect on an existing file part (C10) -/

def filePartId : Part → Option String
  | .inputFile i => some i
  | .inputText _ => none

/-! ## Concrete sample environments -/

/-- A raw calendar client whose every operation throws. -/
def failingClient : CalendarClient :=
  { eventsInsert := fun _ => .error "network error",
    eventsList := fun _ _ _ => .error "network error",
    eventsDelete := fun _ _ => .error "network error" }

/-- A small concrete stand-in for `JSON.parse`. -/
def sampleParse (s : String) : Option Json :=
  if s = "null" then some Json.null
  else if s = "\x7b\x7d" then some (Json.obj [])
  else none

def sampleNowParts : NowParts :=
  { weekDay := "sexta-feira", day := "10", month := "outubro",
    year := "2025", time := "14:30" }

def sampleEnv : Env :=
  { jsonParse := sampleParse,
    client := failingClient,
    responses := fun _ => [OutputItem.functionCall "call-1" "foo" "\x7b\x7d"],
    rawPrompt := "Prompt: $dateTime",
    nowParts := fun _ => sampleNowParts,
    nowISO := "2025-10-10T17:30:00.000Z",
    isoOf := fun _ => "2025-10-10T12:00:00.000Z",
    localeFormat := fun s => s,
    dateMinutes := fun _ => 0 }

/-- Like `sampleEnv`, but the model sends unparseable tool arguments. -/
def badArgsEnv : Env :=
  { sampleEnv with
    responses := fun _ => [OutputItem.functionCall "call-1" "foo" "oops"] }

/-! ## Theorems -/

/-- A token list of the shape `lit c, endAnchor, lit d, …` can never
match: after the end-of-input assertion a further literal is demanded. -/
theorem matchToks_lit_anchor_lit_none (c d : Char) (ts : List RTok) :
    ∀ s : List Char,
      matchToks (RTok.lit c :: RTok.endAnchor :: RTok.lit d :: ts) s = none := by
  intro s
  match s with
  | [] => rfl
  | e :: r =>
      simp only [matchToks]
      by_cases h : c = e
      · simp only [h, if_pos rfl]
        match r with
        | [] => rfl
        | _ :: _ => rfl
      · rw [if_neg h]

/-- If the tokens never match, global replacement is the identity. -/
theorem replaceScan_of_no_match (ts : List RTok) (repl : List Char)
    (h : ∀ s, matchToks ts s = none) : ∀ l, replaceScan ts repl l = l := by
  intro l
  induction l with
  | nil => unfold replaceScan; rw [h]
  | cons c rest ih => unfold replaceScan; rw [h, ih]

/-- The variable actually passed at the call site is the string
`$dateTime` (with its dollar sign), so the constructed pattern is
`\$$dateTime`, whose inner `$` is the end-of-input assertion; the
replacement therefore never fires and `replaceVariable` returns its
input text unchanged. -/
theorem replaceVariable_dateTime_eq_id (text dynamicValue : String) :
    replaceVariable text "$dateTime" dynamicValue = text := by
  unfold replaceVariable
  have hpat : parsePat ('\\' :: '$' :: ("$dateTime").data) =
      RTok.lit '$' :: RTok.endAnchor :: RTok.lit 'd' ::
        parsePat ("ateTime").data := by decide
  simp only [hpat]
  rw [replaceScan_of_no_match _ _ (matchToks_lit_anchor_lit_none _ _ _)]

/-- C1: the prompt-resolution step of `run` is claimed to replace every
occurrence of the `$dateTime` placeholder by the rendered date/time
string.  On the code it does not: the template comes back unchanged at a
concrete input, the placeholder still present, instead of the substituted
text the claim requires. -/
theorem c1_dateTime_placeholder_never_replaced :
    replaceVariable "Contexto: $dateTime Fim." "$dateTime"
        "Hoje é sexta-feira." = "Contexto: $dateTime Fim." ∧
    ¬ replaceVariable "Contexto: $dateTime Fim." "$dateTime"
        "Hoje é sexta-feira." = "Contexto: Hoje é sexta-feira. Fim." := by
  refine ⟨replaceVariable_dateTime_eq_id _ _, ?_⟩
  rw [replaceVariable_dateTime_eq_id]
  decide

theorem findLastIdx_lt_length {p : α → Bool} :
    ∀ {l : List α} {k : Nat}, findLastIdx p l = some k → k < l.length := by
  intro l
  induction l with
  | nil => intro k h; simp [findLastIdx] at h
  | cons a as ih =>
      intro k h
      rw [findLastIdx] at h
      match hr : findLastIdx p as with
      | some j =>
          rw [hr] at h
          injection h with h
          subst h
          exact Nat.succ_lt_succ (ih hr)
      | none =>
          rw [hr] at h
          by_cases hp : p a
          · simp [hp] at h
            subst h
            exact Nat.succ_pos _
          · simp [hp] at h

theorem findLastIdx_getD {p : α → Bool} (d : α) :
    ∀ {l : List α} {k : Nat}, findLastIdx p l = some k → p (l.getD k d) = true := by
  intro l
  induction l with
  | nil => intro k h; simp [findLastIdx] at h
  | cons a as ih =>
      intro k h
      rw [findLastIdx] at h
      match hr : findLastIdx p as with
      | some j =>
          rw [hr] at h
          injection h with h
          subst h
          simpa using ih hr
      | none =>
          rw [hr] at h
          by_cases hp : p a
          · simp [hp] at h
            subst h
            simpa using hp
          · simp [hp] at h

theorem findLastIdx_none {p : α → Bool} :
    ∀ {l : List α}, findLastIdx p l = none → ∀ a ∈ l, ¬ p a := by
  intro l
  induction l with
  | nil => intro _ a ha; cases ha
  | cons b bs ih =>
      intro h a ha
      rw [findLastIdx] at h
      match hr : findLastIdx p bs with
      | some j => rw [hr] at h; cases h
      | none =>
          rw [hr] at h
          by_cases hp : p b
          · simp [hp] at h
          · cases ha with
            | head => simpa using hp
            | tail _ hmem => exact ih hr a hmem

theorem findLastIdx_set {p : α → Bool} {x : α} (hx : p x = true) :
    ∀ {l : List α} {k : Nat}, findLastIdx p l = some k →
      findLastIdx p (l.set k x) = some k := by
  intro l
  induction l with
  | nil => intro k h; simp [findLastIdx] at h
  | cons a as ih =>
      intro k h
      rw [findLastIdx] at h
      match hr : findLastIdx p as with
      | some j =>
          rw [hr] at h
          injection h with h
          subst h
          rw [List.set_cons_succ, findLastIdx, ih hr]
      | none =>
          rw [hr] at h
          by_cases hp : p a
          · simp [hp] at h
            subst h
            simp only [List.set_cons_zero]
            rw [findLastIdx, hr, if_pos hx]
          · simp [hp] at h

/-- Setting the entry at the last `p`-index to a `p`-element makes it
the value found from the right. -/
theorem lastFind_set {p : α → Bool} {x : α} (hx : p x = true) :
    ∀ {l : List α} {k : Nat}, findLastIdx p l = some k →
      (l.set k x).reverse.find? p = some x := by
  intro l
  induction l with
  | nil => intro k h; simp [findLastIdx] at h
  | cons a as ih =>
      intro k h
      rw [findLastIdx] at h
      match hr : findLastIdx p as with
      | some j =>
          rw [hr] at h
          injection h with h
          subst h
          rw [List.set_cons_succ]
          simp only [List.reverse_cons, List.find?_append]
          rw [ih hr]
          rfl
      | none =>
          rw [hr] at h
          by_cases hp : p a
          · simp [hp] at h
            subst h
            simp only [List.set_cons_zero, List.reverse_cons, List.find?_append]
            have hnone : as.reverse.find? p = none := by
              rw [List.find?_eq_none]
              intro b hb
              exact findLastIdx_none hr b (List.mem_reverse.mp hb)
            rw [hnone]
            simp [hx]
          · simp [hp] at h

theorem lastFind_append_singleton {p : α → Bool} {x : α} (hx : p x = true)
    (l : List α) : ((l ++ [x]).reverse.find? p) = some x := by
  rw [List.reverse_append]
  simp [hx]

theorem findLastIdx_append_singleton {p : α → Bool} {x : α} (hx : p x = true) :
    ∀ (l : List α), ∃ k, findLastIdx p (l ++ [x]) = some k := by
  intro l
  induction l with
  | nil => exact ⟨0, by simp [findLastIdx, hx]⟩
  | cons a as ih =>
      obtain ⟨k, hk⟩ := ih
      exact ⟨k + 1, by rw [List.cons_append, findLastIdx, hk]⟩

/-- Every branch of the last-user rewrite produces a `user` message. -/
theorem updatedUserMsg_isUser (a b : String) (c : Option String) (old : Msg) :
    isUserMsg (updatedUserMsg a b c old) = true := by
  unfold updatedUserMsg
  match c with
  | some fid => rfl
  | none =>
      match old with
      | Msg.system _ => rfl
      | Msg.assistant _ => rfl
      | Msg.functionCall _ _ _ => rfl
      | Msg.functionCallOutput _ _ => rfl
      | Msg.user (MsgContent.str _) => rfl
      | Msg.user (MsgContent.parts ps) => rfl

theorem isSystemMsg_of_isUserMsg {m : Msg} (h : isUserMsg m = true) :
    isSystemMsg m = false := by
  cases m <;> simp_all [isUserMsg, isSystemMsg, Msg.role]

theorem isAssistantMsg_of_isUserMsg {m : Msg} (h : isUserMsg m = true) :
    isAssistantMsg m = false := by
  cases m <;> simp_all [isUserMsg, isAssistantMsg, Msg.role]

theorem newUserMsg_isUser (a : String) (b : Option String) (c : String) :
    isUserMsg (newUserMsg a b c) = true := by
  unfold newUserMsg
  match b with
  | some fid => rfl
  | none => rfl

theorem fallbackUserMsg_isUser (a : String) (b : Option String) :
    isUserMsg (fallbackUserMsg a b) = true := by
  unfold fallbackUserMsg
  match b with
  | some fid =>
      dsimp only
      by_cases hf : fid = ""
      · rw [if_pos hf]; rfl
      · rw [if_neg hf]; rfl
  | none => rfl

theorem isAssistantMsg_system (c : String) :
    isAssistantMsg (Msg.system c) = false := rfl

theorem countP_system_single_user {m : Msg} (h : isUserMsg m = true) :
    List.countP (fun m => isSystemMsg m) [m] = 0 := by
  have hs : isSystemMsg m = false := isSystemMsg_of_isUserMsg h
  simp [List.countP_cons, hs]

theorem countP_isSystem_filter (l : List Msg) :
    (l.filter (fun m => ! isSystemMsg m)).countP (fun m => isSystemMsg m) = 0 := by
  rw [List.countP_eq_zero]
  intro a ha
  have := List.of_mem_filter ha
  simpa using this

/-- Reconciliation always yields a fresh system head over a
system-free tail. -/
theorem reconcile_system_shape (finalPrompt userText : String)
    (fileId : Option String) (input : List Msg) :
    ∃ rest, reconcile finalPrompt userText fileId input =
        Msg.system finalPrompt :: rest ∧
      rest.countP (fun m => isSystemMsg m) = 0 := by
  have main : ∃ rest, reconcile finalPrompt userText fileId input =
      Msg.system finalPrompt :: rest ∧
      rest.countP (fun m => isSystemMsg m) = 0 := by
    unfold reconcile
    by_cases hemp : input.isEmpty
    · rw [if_pos hemp]
      refine ⟨_, rfl, ?_⟩
      exact countP_system_single_user (newUserMsg_isUser _ _ _)
    · rw [if_neg hemp]
      simp only
      match hidx : findLastIdx isUserMsg
          (Msg.system finalPrompt :: input.filter (fun m => ! isSystemMsg m)) with
      | some idx =>
          dsimp only
          have huser : isUserMsg ((Msg.system finalPrompt ::
              input.filter (fun m => ! isSystemMsg m)).getD idx
                (Msg.user (MsgContent.str ""))) = true :=
            findLastIdx_getD _ hidx
          match idx with
          | 0 => simp [isUserMsg, Msg.role] at huser
          | j + 1 =>
              rw [List.set_cons_succ]
              refine ⟨_, rfl, ?_⟩
              rw [List.countP_eq_zero]
              intro a ha
              rcases List.mem_or_eq_of_mem_set ha with hmem | heq
              · have := List.of_mem_filter hmem
                simpa using this
              · subst heq
                rw [isSystemMsg_of_isUserMsg (updatedUserMsg_isUser _ _ _ _)]
                simp
      | none =>
          dsimp only
          rw [List.cons_append]
          refine ⟨_, rfl, ?_⟩
          rw [List.countP_append, countP_isSystem_filter,
            countP_system_single_user (fallbackUserMsg_isUser _ _)]
  exact main

/-- C2: after the reconciliation step of `run`, the history contains
exactly one `system`-role message, and it is at index 0 (carrying the
freshly resolved prompt). -/
theorem c2_system_message_uniqueness (finalPrompt userText : String)
    (fileId : Option String) (input : List Msg) :
    (reconcile finalPrompt userText fileId input).countP
        (fun m => isSystemMsg m) = 1 ∧
    ∃ rest, reconcile finalPrompt userText fileId input =
        Msg.system finalPrompt :: rest ∧
      rest.countP (fun m => isSystemMsg m) = 0 := by
  obtain ⟨rest, hr, hc⟩ :=
    reconcile_system_shape finalPrompt userText fileId input
  refine ⟨?_, rest, hr, hc⟩
  rw [hr, List.countP_cons_of_pos, hc]
  rfl

/-! ## Dispatcher-level claims -/

/-- C5: a `function_call` whose tool name is not one of the five
registered names is soft-failed by the dispatcher: it never throws, it
appends exactly one tool-result entry carrying the fixed error string
keyed to the originating call id, and the `loopAgent` flag is left
untouched.  (The name dispatch happens after the argument payload has
been parsed; an unparseable payload is the hard-failure case C6.) -/
theorem c5_unregistered_tool_soft_fail (env : Env)
    (callId name arguments : String) (loopAgent : Bool) (j : Json)
    (hparse : env.jsonParse arguments = some j)
    (hname : ¬ name ∈ registeredTools) :
    handleOutput env (OutputItem.functionCall callId name arguments) loopAgent =
      .ok ([Msg.functionCallOutput callId
            ("ERROR: tool " ++ name ++ " not implemented.")], loopAgent) := by
  simp only [registeredTools, List.mem_cons, not_or, List.not_mem_nil,
    not_false_eq_true, and_true] at hname
  obtain ⟨h1, h2, h3, h4, h5⟩ := hname
  unfold handleOutput
  dsimp only
  rw [hparse]
  dsimp only
  unfold dispatch
  rw [if_neg h1, if_neg h2, if_neg h3, if_neg h4, if_neg h5]
  rfl

/-- A throwing handler forces the whole handler loop to throw, whatever
precedes or follows the item. -/
theorem handleOutputs_error_of_mem (env : Env) {item : OutputItem}
    (hbad : ∀ flag, ∃ e, handleOutput env item flag = .error e) :
    ∀ (items : List OutputItem) (flag : Bool), item ∈ items →
      ∃ e, handleOutputs env items flag = .error e := by
  intro items
  induction items with
  | nil => intro flag hmem; cases hmem
  | cons o os ih =>
      intro flag hmem
      rw [handleOutputs]
      rcases List.mem_cons.mp hmem with heq | hmem2
      · subst heq
        obtain ⟨e, he⟩ := hbad flag
        rw [he]
        exact ⟨e, rfl⟩
      · match ho : handleOutput env o flag with
        | .error e => exact ⟨e, rfl⟩
        | .ok r =>
            dsimp only
            obtain ⟨e, he⟩ := ih r.2 hmem2
            rw [he]
            exact ⟨e, rfl⟩

/-- C6: a `function_call` whose arguments payload is not valid JSON is
a hard failure — the handler for the item throws, and a `run` whose
first completion-service response contains such an item propagates the
throw (so no history, in particular no tool-result entry for the call,
is returned). -/
theorem c6_malformed_arguments_raise (env : Env)
    (callId name arguments : String)
    (hparse : env.jsonParse arguments = none) :
    (∀ loopAgent, ∃ e,
        handleOutput env (OutputItem.functionCall callId name arguments)
          loopAgent = .error e) ∧
    (∀ userText fileId input,
        OutputItem.functionCall callId name arguments ∈ env.responses 0 →
        ∃ e, (run env userText input fileId).1 = .error e) := by
  have hitem : ∀ loopAgent, ∃ e,
      handleOutput env (OutputItem.functionCall callId name arguments)
        loopAgent = .error e := by
    intro loopAgent
    unfold handleOutput
    dsimp only
    rw [hparse]
    exact ⟨_, rfl⟩
  refine ⟨hitem, ?_⟩
  intro userText fileId input hmem
  obtain ⟨e, he⟩ := handleOutputs_error_of_mem env hitem (env.responses 0) true hmem
  unfold run
  rw [runLoop]
  rw [dif_pos (by exact ⟨rfl, by decide⟩)]
  unfold processResponse
  rw [he]
  exact ⟨e, rfl⟩

theorem handleOutput_ok_delta (env : Env) (o : OutputItem) (flag : Bool)
    (r : List Msg × Bool) (h : handleOutput env o flag = .ok r) :
    r.1.filter isInvocationEntry = [] ∧ resultCallIds r.1 = fcCallIds [o] := by
  match o with
  | .message content =>
      rw [handleOutput] at h
      injection h with h
      rw [← h]
      constructor
      · rw [List.filter_eq_nil]
        intro a ha
        obtain ⟨c, _, hc⟩ := List.mem_filterMap.mp ha
        match c with
        | .outputText t =>
            injection hc with hc
            rw [← hc]
            simp [isInvocationEntry]
        | .otherPart _ => cases hc
      · rw [resultCallIds, List.filterMap_filterMap]
        rw [show fcCallIds [OutputItem.message content] = [] from rfl]
        rw [List.filterMap_eq_nil]
        intro c _
        match c with
        | .outputText t => rfl
        | .otherPart _ => rfl
  | .reasoning =>
      rw [handleOutput] at h
      injection h with h
      rw [← h]
      exact ⟨rfl, rfl⟩
  | .otherItem k =>
      rw [handleOutput] at h
      injection h with h
      rw [← h]
      exact ⟨rfl, rfl⟩
  | .functionCall callId name arguments =>
      rw [handleOutput] at h
      match hp : env.jsonParse arguments with
      | none => rw [hp] at h; cases h
      | some args =>
          rw [hp] at h
          dsimp only at h
          match hd : dispatch env name args with
          | .error e => rw [hd] at h; cases h
          | .ok s =>
              rw [hd] at h
              injection h with h
              rw [← h]
              exact ⟨rfl, rfl⟩

theorem handleOutputs_ok_delta (env : Env) :
    ∀ (items : List OutputItem) (flag : Bool) (d : List Msg) (f : Bool),
      handleOutputs env items flag = .ok (d, f) →
      d.filter isInvocationEntry = [] ∧ resultCallIds d = fcCallIds items := by
  intro items
  induction items with
  | nil =>
      intro flag d f h
      rw [handleOutputs] at h
      injection h with h
      simp only [Prod.mk.injEq] at h
      obtain ⟨hd, hf⟩ := h
      subst hd
      exact ⟨rfl, rfl⟩
  | cons o os ih =>
      intro flag d f h
      rw [handleOutputs] at h
      match ho : handleOutput env o flag with
      | .error e => rw [ho] at h; cases h
      | .ok r =>
          rw [ho] at h
          dsimp only at h
          match h2 : handleOutputs env os r.2 with
          | .error e => rw [h2] at h; cases h
          | .ok r2 =>
              rw [h2] at h
              injection h with h
              simp only [Prod.mk.injEq] at h
              obtain ⟨hd, hf⟩ := h
              subst hd
              obtain ⟨hi1, hr1⟩ := handleOutput_ok_delta env o flag r ho
              obtain ⟨hi2, hr2⟩ := ih r.2 r2.1 r2.2 h2
              constructor
              · rw [List.filter_append, hi1, hi2]
                rfl
              · rw [resultCallIds, List.filterMap_append]
                rw [show (fcCallIds (o :: os)) = fcCallIds [o] ++ fcCallIds os by
                  rw [fcCallIds, fcCallIds, fcCallIds,
                    show (o :: os) = [o] ++ os from rfl, List.filterMap_append]]
                rw [← hr1, ← hr2]
                rfl

/-- C4: when a response is processed successfully, the history grows by
the block of `ToolInvocation` entries — one per emitted `function_call`,
in emitted order, appended before any tool executes — followed by a
segment that contains no invocation entries and whose tool-result
entries carry exactly the emitted call ids in emitted order.  Hence
invocations and results each preserve the emitted relative order, and
every invocation entry precedes its result entry. -/
theorem c4_ordering_preservation (env : Env) (input : List Msg)
    (loopAgent : Bool) (items : List OutputItem) (hist2 : List Msg)
    (flag2 : Bool)
    (hok : processResponse env input loopAgent items = .ok (hist2, flag2)) :
    ∃ d, hist2 = input ++ invocationEntries items ++ d ∧
      d.filter isInvocationEntry = [] ∧
      resultCallIds d = fcCallIds items := by
  rw [processResponse] at hok
  match h2 : handleOutputs env items loopAgent with
  | .error e => rw [h2] at hok; cases hok
  | .ok r =>
      rw [h2] at hok
      injection hok with hok
      simp only [Prod.mk.injEq] at hok
      obtain ⟨hd, hf⟩ := hok
      obtain ⟨hi, hr⟩ := handleOutputs_ok_delta env items loopAgent r.1 r.2 h2
      exact ⟨r.1, hd.symm, hi, hr⟩

/-! ## Bounded termination of the agent loop (C3) -/

/-- The loop performs at most `MAX_AGENT_LOOP - loopCounter` further
completion-service calls, whatever the environment does. -/
theorem runLoop_calls_le (env : Env) (userText : String)
    (fileId : Option String) :
    ∀ (fuel loopCounter : Nat), MAX_AGENT_LOOP - loopCounter = fuel →
      ∀ (input : List Msg) (loopAgent : Bool),
        (runLoop env userText fileId input loopAgent loopCounter).2 ≤ fuel := by
  intro fuel
  induction fuel with
  | zero =>
      intro lc hlc input loopAgent
      rw [runLoop]
      rw [dif_neg (by omega)]
  | succ n ih =>
      intro lc hlc input loopAgent
      rw [runLoop]
      by_cases hg : loopAgent = true ∧ lc < MAX_AGENT_LOOP
      · rw [dif_pos hg]
        dsimp only
        match hP : processResponse env
            (reconcile
              (replaceVariable env.rawPrompt "$dateTime"
                (getSaoPauloTodayInfo (env.nowParts lc)))
              userText fileId input)
            loopAgent (env.responses lc) with
        | .error e => dsimp only; omega
        | .ok r =>
            dsimp only
            have hrec := ih (lc + 1) (by omega) r.1 r.2
            omega
      · rw [dif_neg hg]
        exact Nat.zero_le _

/-- `getMember` on a non-nullish value is the total field lookup. -/
theorem getMember_ok {j : Json} (hnn : j.nullish = false) (key : String) :
    j.getMember key = .ok (j.getField key) := by
  unfold Json.getMember
  rw [hnn]
  rfl

/-- Dispatch never throws on a non-nullish arguments value. -/
theorem dispatch_ok (env : Env) (name : String) {j : Json}
    (hnn : j.nullish = false) : ∃ s, dispatch env name j = .ok s := by
  unfold dispatch
  split_ifs <;> simp [getMember_ok hnn, bind, Except.bind]

/-- A `function_call` item with parseable, non-nullish arguments is
handled without a throw, appending exactly one tool-result entry and
leaving the flag unchanged. -/
theorem handleOutput_good_fc (env : Env) (callId name arguments : String)
    (loopAgent : Bool) {j : Json} (hp : env.jsonParse arguments = some j)
    (hnn : j.nullish = false) :
    ∃ s, handleOutput env (OutputItem.functionCall callId name arguments)
        loopAgent = .ok ([Msg.functionCallOutput callId s], loopAgent) := by
  obtain ⟨s, hs⟩ := dispatch_ok env name hnn
  refine ⟨s, ?_⟩
  rw [handleOutput]
  rw [hp]
  dsimp only
  rw [hs]
  rfl

/-- A response consisting solely of parseable `function_call` items is
processed without a throw; the flag survives and no assistant message is
appended. -/
theorem handleOutputs_all_fc (env : Env) :
    ∀ (items : List OutputItem) (loopAgent : Bool),
      (∀ item ∈ items, ∃ callId name arguments,
        item = OutputItem.functionCall callId name arguments ∧
        ∃ j, env.jsonParse arguments = some j ∧ j.nullish = false) →
      ∃ d, handleOutputs env items loopAgent = .ok (d, loopAgent) ∧
        d.countP (fun m => isAssistantMsg m) = 0 := by
  intro items
  induction items with
  | nil => intro loopAgent _; exact ⟨[], rfl, rfl⟩
  | cons o os ih =>
      intro loopAgent hgood
      obtain ⟨callId, name, arguments, heq, j, hp, hnn⟩ :=
        hgood o (List.mem_cons_self o os)
      subst heq
      obtain ⟨s, hs⟩ := handleOutput_good_fc env callId name arguments loopAgent hp hnn
      obtain ⟨d, hd, hdc⟩ := ih loopAgent
        (fun item hmem => hgood item (List.mem_cons_of_mem _ hmem))
      refine ⟨Msg.functionCallOutput callId s :: d, ?_, ?_⟩
      · rw [handleOutputs, hs]
        dsimp only
        rw [hd]
        rfl
      · rw [List.countP_cons_of_neg, hdc]
        simp [isAssistantMsg, Msg.role]

theorem countP_assistant_invocationEntries (items : List OutputItem) :
    (invocationEntries items).countP (fun m => isAssistantMsg m) = 0 := by
  rw [List.countP_eq_zero]
  intro a ha
  obtain ⟨item, _, hitem⟩ := List.mem_filterMap.mp ha
  match item with
  | .functionCall c n ar =>
      injection hitem with hitem
      rw [← hitem]
      simp [isAssistantMsg, Msg.role]
  | .message _ => cases hitem
  | .reasoning => cases hitem
  | .otherItem _ => cases hitem

/-- Setting an entry to one with the same predicate value preserves the
count. -/
theorem countP_set_eq {p : α → Bool} (d : α) :
    ∀ (l : List α) (k : Nat) (x : α), k < l.length →
      p (l.getD k d) = p x → (l.set k x).countP p = l.countP p := by
  intro l
  induction l with
  | nil => intro k x hk; cases hk
  | cons a as ih =>
      intro k x hk hp
      match k with
      | 0 =>
          rw [List.set_cons_zero, List.countP_cons, List.countP_cons]
          rw [List.getD_cons_zero] at hp
          rw [hp]
      | k + 1 =>
          rw [List.set_cons_succ, List.countP_cons, List.countP_cons]
          rw [List.getD_cons_succ] at hp
          rw [ih k x (Nat.lt_of_succ_lt_succ hk) hp]

/-- Filtering out system messages does not change the assistant count. -/
theorem countP_assistant_filter (l : List Msg) :
    (l.filter (fun m => ! isSystemMsg m)).countP (fun m => isAssistantMsg m) =
      l.countP (fun m => isAssistantMsg m) := by
  rw [List.countP_filter]
  congr 1
  funext m
  cases m <;> simp [isAssistantMsg, isSystemMsg, Msg.role]

/-- Reconciliation never changes the number of assistant messages. -/
theorem reconcile_countP_assistant (finalPrompt userText : String)
    (fileId : Option String) (input : List Msg) :
    (reconcile finalPrompt userText fileId input).countP
        (fun m => isAssistantMsg m) =
      input.countP (fun m => isAssistantMsg m) := by
  unfold reconcile
  by_cases hemp : input.isEmpty
  · rw [if_pos hemp, List.isEmpty_iff.mp hemp]
    have h2 := isAssistantMsg_of_isUserMsg (newUserMsg_isUser userText
      (actualIdOf fileId userText) (cleanOf userText))
    simp [List.countP_cons, h2, isAssistantMsg_system]
  · rw [if_neg hemp]
    dsimp only
    match hidx : findLastIdx isUserMsg
        (Msg.system finalPrompt :: input.filter (fun m => ! isSystemMsg m)) with
    | some idx =>
        dsimp only
        rw [countP_set_eq (Msg.user (MsgContent.str "")) _ idx _
          (findLastIdx_lt_length hidx)
          (by
            rw [isAssistantMsg_of_isUserMsg (findLastIdx_getD _ hidx),
              isAssistantMsg_of_isUserMsg (updatedUserMsg_isUser _ _ _ _)])]
        rw [List.countP_cons, countP_assistant_filter]
        simp [isAssistantMsg_system]
    | none =>
        dsimp only
        rw [List.cons_append, List.countP_cons, List.countP_append,
          countP_assistant_filter]
        have h2 := isAssistantMsg_of_isUserMsg
          (fallbackUserMsg_isUser userText fileId)
        simp [List.countP_cons, h2, isAssistantMsg_system]

/-- When every response consists solely of well-formed `function_call`
items, each iteration succeeds, keeps the flag set and appends no
assistant message, so the loop spends its whole budget. -/
theorem runLoop_all_fc (env : Env) (userText : String)
    (fileId : Option String)
    (hgood : ∀ k, ∀ item ∈ env.responses k, ∃ callId name arguments,
        item = OutputItem.functionCall callId name arguments ∧
        ∃ j, env.jsonParse arguments = some j ∧ j.nullish = false) :
    ∀ (fuel loopCounter : Nat), MAX_AGENT_LOOP - loopCounter = fuel →
      ∀ input : List Msg, ∃ hist,
        runLoop env userText fileId input true loopCounter = (.ok hist, fuel) ∧
        hist.countP (fun m => isAssistantMsg m) =
          input.countP (fun m => isAssistantMsg m) := by
  intro fuel
  induction fuel with
  | zero =>
      intro lc hlc input
      rw [runLoop, dif_neg (by omega)]
      exact ⟨input, rfl, rfl⟩
  | succ n ih =>
      intro lc hlc input
      rw [runLoop, dif_pos ⟨rfl, by omega⟩]
      try dsimp only
      obtain ⟨d, hd, hdc⟩ := handleOutputs_all_fc env (env.responses lc) true (hgood lc)
      rw [processResponse, hd]
      simp only [Except.map]
      obtain ⟨hist, hrec, hcnt⟩ := ih (lc + 1) (by omega)
        (reconcile (replaceVariable env.rawPrompt "$dateTime"
            (getSaoPauloTodayInfo (env.nowParts lc))) userText fileId input ++
          invocationEntries (env.responses lc) ++ d)
      rw [hrec]
      refine ⟨hist, rfl, ?_⟩
      rw [hcnt, List.countP_append, List.countP_append,
        reconcile_countP_assistant, countP_assistant_invocationEntries, hdc]
      omega

/-- C3: the loop performs at most `MAX_AGENT_LOOP` (3) completion-service
calls for every environment and initial history; and when every
completion-service response consists solely of (parseable)
`function_call` items, it terminates after exactly 3 calls, returning a
history with no assistant-text message appended. -/
theorem c3_bounded_termination (env : Env) (userText : String)
    (input : List Msg) (fileId : Option String) :
    (run env userText input fileId).2 ≤ MAX_AGENT_LOOP ∧
    ((∀ k, ∀ item ∈ env.responses k, ∃ callId name arguments,
        item = OutputItem.functionCall callId name arguments ∧
        ∃ j, env.jsonParse arguments = some j ∧ j.nullish = false) →
      (run env userText input fileId).2 = 3 ∧
      ∃ hist, (run env userText input fileId).1 = .ok hist ∧
        hist.countP (fun m => isAssistantMsg m) =
          input.countP (fun m => isAssistantMsg m)) := by
  constructor
  · exact runLoop_calls_le env userText fileId MAX_AGENT_LOOP 0 rfl input true
  · intro hgood
    obtain ⟨hist, hrun, hcnt⟩ :=
      runLoop_all_fc env userText fileId hgood MAX_AGENT_LOOP 0 rfl input
    unfold run
    rw [hrun]
    exact ⟨rfl, hist, rfl, hcnt⟩

/-! ## Capability-provider failure handling (C7) -/

/-- C7: an error thrown by the raw calendar client inside any of the
four provider operations is caught at the provider boundary and turned
into a result string carrying the `❌` failure marker; the dispatcher
appends that string as the tool result, keyed to the call id, without
clearing the loop flag — the loop is not terminated by the error. -/
theorem c7_provider_failure_soft (env : Env) (m : String)
    (hDel : ∀ x y, env.client.eventsDelete x y = .error m)
    (hIns : ∀ r, env.client.eventsInsert r = .error m)
    (hList : ∀ a b c, env.client.eventsList a b c = .error m) :
    (∀ p, cancelMeeting env.client p = "❌ Error cancelling meeting: " ++ m) ∧
    (∀ p, scheduleMeeting env.client p = "❌ Error scheduling meeting: " ++ m) ∧
    (∀ p, getUpcomingEvents env p = "❌ Error getting events: " ++ m) ∧
    (∀ p, findAvailableSlots env p = "❌ Error finding available slots: " ++ m) ∧
    ("❌".data <+: ("❌ Error cancelling meeting: " ++ m).data) ∧
    (∀ callId a j loopAgent, env.jsonParse a = some j → j.nullish = false →
      handleOutput env (OutputItem.functionCall callId "cancel_meeting" a)
          loopAgent =
        .ok ([Msg.functionCallOutput callId
              ("❌ Error cancelling meeting: " ++ m)], loopAgent)) := by
  have hc : ∀ p, cancelMeeting env.client p =
      "❌ Error cancelling meeting: " ++ m := by
    intro p
    unfold cancelMeeting
    dsimp only
    rw [hDel]
  refine ⟨hc, ?_, ?_, ?_, ?_, ?_⟩
  · intro p
    unfold scheduleMeeting
    dsimp only
    rw [hIns]
  · intro p
    unfold getUpcomingEvents
    dsimp only
    rw [hList]
  · intro p
    unfold findAvailableSlots
    dsimp only
    rw [hList]
  · rw [show ("❌ Error cancelling meeting: " ++ m) =
      "❌" ++ (" Error cancelling meeting: " ++ m) by
        rw [← String.append_assoc]; rfl]
    rw [String.data_append]
    exact List.prefix_append _ _
  · intro callId a j loopAgent hp hnn
    rw [handleOutput]
    rw [hp]
    dsimp only
    rw [show dispatch env "cancel_meeting" j =
        .ok (cancelMeeting env.client
          { eventId := j.getField "eventId",
            sendUpdates := j.getField "sendUpdates" }) by
      unfold dispatch
      rw [if_neg (by decide), if_neg (by decide), if_neg (by decide),
        if_neg (by decide), if_pos rfl]
      rw [getMember_ok hnn, getMember_ok hnn]
      rfl]
    rw [hc]
    rfl

/-! ## Structure lemmas for the reconciler (C8, C9, C10) -/

theorem reconcile_eq_empty (finalPrompt userText : String)
    (fileId : Option String) :
    reconcile finalPrompt userText fileId [] =
      [Msg.system finalPrompt,
        newUserMsg userText (actualIdOf fileId userText) (cleanOf userText)] := by
  unfold reconcile
  rfl

theorem reconcile_eq_set (finalPrompt userText : String)
    (fileId : Option String) {input : List Msg} (hne : ¬ input.isEmpty = true)
    {idx : Nat}
    (hidx : findLastIdx isUserMsg (Msg.system finalPrompt ::
      input.filter (fun m => ! isSystemMsg m)) = some idx) :
    reconcile finalPrompt userText fileId input =
      (Msg.system finalPrompt :: input.filter (fun m => ! isSystemMsg m)).set
        idx
        (updatedUserMsg userText (cleanOf userText) (actualIdOf fileId userText)
          ((Msg.system finalPrompt ::
            input.filter (fun m => ! isSystemMsg m)).getD idx
              (Msg.user (MsgContent.str "")))) := by
  unfold reconcile
  rw [if_neg hne]
  dsimp only
  rw [hidx]

theorem reconcile_eq_append (finalPrompt userText : String)
    (fileId : Option String) {input : List Msg} (hne : ¬ input.isEmpty = true)
    (hidx : findLastIdx isUserMsg (Msg.system finalPrompt ::
      input.filter (fun m => ! isSystemMsg m)) = none) :
    reconcile finalPrompt userText fileId input =
      (Msg.system finalPrompt :: input.filter (fun m => ! isSystemMsg m)) ++
        [fallbackUserMsg userText fileId] := by
  unfold reconcile
  rw [if_neg hne]
  dsimp only
  rw [hidx]

theorem findLastIdx_cons_succ_inv {p : α → Bool} {a : α} {l : List α} {k : Nat}
    (h : findLastIdx p (a :: l) = some (k + 1)) : findLastIdx p l = some k := by
  rw [findLastIdx] at h
  match hr : findLastIdx p l with
  | some j =>
      rw [hr] at h
      injection h with h
      have hjk : j = k := by omega
      rw [hjk]
  | none =>
      rw [hr] at h
      by_cases hp : p a
      · simp [hp] at h
      · simp [hp] at h

theorem findLastIdx_mem {p : α → Bool} {x : α} (hx : p x = true) :
    ∀ {l : List α}, x ∈ l → ∃ k, findLastIdx p l = some k := by
  intro l
  induction l with
  | nil => intro h; cases h
  | cons a as ih =>
      intro hmem
      rw [findLastIdx]
      match hr : findLastIdx p as with
      | some j => exact ⟨j + 1, rfl⟩
      | none =>
          rcases List.mem_cons.mp hmem with heq | hmem2
          · subst heq
            rw [if_pos hx]
            exact ⟨0, rfl⟩
          · obtain ⟨k, hk⟩ := ih hmem2
            rw [hk] at hr
            cases hr

theorem findLastIdx_append_last {p : α → Bool} {x : α} (hx : p x = true) :
    ∀ (l : List α), findLastIdx p (l ++ [x]) = some l.length := by
  intro l
  induction l with
  | nil => rw [List.nil_append, findLastIdx, findLastIdx, if_pos hx]; rfl
  | cons a as ih => rw [List.cons_append, findLastIdx, ih]; rfl

theorem getD_set_self (d : α) :
    ∀ (l : List α) (k : Nat) (x : α), k < l.length →
      (l.set k x).getD k d = x := by
  intro l
  induction l with
  | nil => intro k x hk; cases hk
  | cons a as ih =>
      intro k x hk
      match k with
      | 0 => rfl
      | k + 1 =>
          rw [List.set_cons_succ, List.getD_cons_succ]
          exact ih k x (Nat.lt_of_succ_lt_succ hk)

theorem set_getD_self (d : α) :
    ∀ (l : List α) (k : Nat), k < l.length → l.set k (l.getD k d) = l := by
  intro l
  induction l with
  | nil => intro k hk; cases hk
  | cons a as ih =>
      intro k hk
      match k with
      | 0 => rfl
      | k + 1 =>
          rw [List.getD_cons_succ, List.set_cons_succ,
            ih k (Nat.lt_of_succ_lt_succ hk)]

theorem getD_append_length (d : α) :
    ∀ (l : List α) (x : α), (l ++ [x]).getD l.length d = x := by
  intro l
  induction l with
  | nil => intro x; rfl
  | cons a as ih => intro x; rw [List.cons_append]; exact ih x

theorem set_append_length :
    ∀ (l : List α) (x y : α), (l ++ [x]).set l.length y = l ++ [y] := by
  intro l
  induction l with
  | nil => intro x y; rfl
  | cons a as ih =>
      intro x y
      rw [List.cons_append, List.length_cons, List.set_cons_succ, ih x y,
        List.cons_append]

theorem findIdxOptGetD {p : α → Bool} (d : α) :
    ∀ {l : List α} {t : Nat}, l.findIdx? p = some t →
      t < l.length ∧ p (l.getD t d) = true := by
  intro l
  induction l with
  | nil => intro t h; cases h
  | cons a as ih =>
      intro t h
      rw [List.findIdx?_cons] at h
      by_cases hp : p a
      · rw [if_pos hp] at h
        injection h with h
        subst h
        exact ⟨Nat.succ_pos _, hp⟩
      · rw [if_neg hp, List.findIdx?_succ] at h
        match ht : as.findIdx? p with
        | none => rw [ht] at h; cases h
        | some t' =>
            rw [ht] at h
            injection h with h
            subst h
            obtain ⟨hlt, hP⟩ := ih ht
            exact ⟨Nat.succ_lt_succ hlt, hP⟩

theorem findIdxOptSetSelf {p : α → Bool} {x : α} (hx : p x = true) :
    ∀ {l : List α} {t : Nat}, l.findIdx? p = some t →
      (l.set t x).findIdx? p = some t := by
  intro l
  induction l with
  | nil => intro t h; cases h
  | cons a as ih =>
      intro t h
      rw [List.findIdx?_cons] at h
      by_cases hp : p a
      · rw [if_pos hp] at h
        injection h with h
        subst h
        rw [List.set_cons_zero, List.findIdx?_cons, if_pos hx]
      · rw [if_neg hp, List.findIdx?_succ] at h
        match ht : as.findIdx? p with
        | none => rw [ht] at h; cases h
        | some t' =>
            rw [ht] at h
            injection h with h
            subst h
            rw [List.set_cons_succ, List.findIdx?_cons, if_neg hp,
              List.findIdx?_succ, ih ht]
            rfl

theorem findIdxOptAppendLast {p : α → Bool} {x : α} (hx : p x = true)
    {l : List α} (hl : l.findIdx? p = none) :
    (l ++ [x]).findIdx? p = some l.length := by
  rw [List.findIdx?_append, hl]
  rw [List.findIdx?_cons, if_pos hx]
  simp

/-- A `system` head never affects the current user turn. -/
theorem lastUser_cons_system (c : String) (l : List Msg) :
    lastUser (Msg.system c :: l) = lastUser l := by
  unfold lastUser
  rw [List.reverse_cons, List.find?_append]
  rw [show List.find? isUserMsg [Msg.system c] = none from rfl]
  rw [Option.or_none]

/-- Filtering the system messages out never affects the current user
turn either. -/
theorem findOptUserFilter (l : List Msg) :
    (l.filter (fun m => ! isSystemMsg m)).find? isUserMsg =
      l.find? isUserMsg := by
  induction l with
  | nil => rfl
  | cons a as ih =>
      by_cases hu : isUserMsg a
      · rw [List.filter_cons_of_pos (by simp [isSystemMsg_of_isUserMsg hu]),
          List.find?_cons_of_pos _ hu, List.find?_cons_of_pos _ hu]
      · by_cases hs : isSystemMsg a
        · rw [List.filter_cons_of_neg (by simp [hs]),
            List.find?_cons_of_neg _ (by simp [hu]), ih]
        · rw [List.filter_cons_of_pos (by simp [hs]),
            List.find?_cons_of_neg _ (by simp [hu]),
            List.find?_cons_of_neg _ (by simp [hu]), ih]

theorem lastUser_filter (l : List Msg) :
    lastUser (l.filter (fun m => ! isSystemMsg m)) = lastUser l := by
  unfold lastUser
  rw [← List.filter_reverse, findOptUserFilter]

/-- The value at the last `p`-index is the value found from the right. -/
theorem findLastIdx_getD_eq_find {p : α → Bool} (d : α) :
    ∀ {l : List α} {k : Nat}, findLastIdx p l = some k →
      l.reverse.find? p = some (l.getD k d) := by
  intro l
  induction l with
  | nil => intro k h; cases h
  | cons a as ih =>
      intro k h
      rw [findLastIdx] at h
      match hr : findLastIdx p as with
      | some j =>
          rw [hr] at h
          injection h with h
          subst h
          rw [List.reverse_cons, List.find?_append, ih hr]
          rfl
      | none =>
          rw [hr] at h
          by_cases hp : p a
          · simp only [hp, if_pos] at h
            injection h with h
            subst h
            rw [List.reverse_cons, List.find?_append]
            have hnone : as.reverse.find? p = none := by
              rw [List.find?_eq_none]
              intro b hb
              exact findLastIdx_none hr b (List.mem_reverse.mp hb)
            rw [hnone, List.getD_cons_zero]
            simp [hp]
          · simp [hp] at h

theorem actualIdOf_some {f : String} (hf : ¬ f = "") (userText : String) :
    actualIdOf (some f) userText = some f := by
  unfold actualIdOf jsOrId
  dsimp only
  rw [if_neg hf]

theorem actualIdOf_none (userText : String) :
    actualIdOf none userText = extractFileIdFromContent userText := rfl

theorem cleanOf_of_extract {userText ext : String}
    (h : extractFileIdFromContent userText = some ext) :
    cleanOf userText = stripMarker userText := by
  unfold cleanOf
  rw [h]
  rfl

theorem cleanOf_of_none {userText : String}
    (h : extractFileIdFromContent userText = none) :
    cleanOf userText = userText := by
  unfold cleanOf
  rw [h]
  rfl

theorem findLastIdx_singleton {p : α → Bool} {x : α} (hx : p x = true) :
    findLastIdx p [x] = some 0 := by
  simp [findLastIdx, hx]

theorem lastUser_two (c : String) {m : Msg} (hm : isUserMsg m = true) :
    lastUser [Msg.system c, m] = some m := by
  unfold lastUser
  rw [show ([Msg.system c, m]).reverse = [m, Msg.system c] from rfl]
  rw [List.find?_cons_of_pos _ hm]

/-- Re-running reconciliation over an already reconciled history only
swaps the system head, provided rewriting the last user entry is a
no-op. -/
theorem reconcile_second_swap_head (finalPrompt2 userText : String)
    (fileId : Option String) (finalPrompt1 : String) {tail1 : List Msg}
    (hnosys : tail1.countP (fun m => isSystemMsg m) = 0)
    {j : Nat} (hj : findLastIdx isUserMsg tail1 = some j)
    (hfix : updatedUserMsg userText (cleanOf userText)
      (actualIdOf fileId userText)
      (tail1.getD j (Msg.user (MsgContent.str ""))) =
        tail1.getD j (Msg.user (MsgContent.str ""))) :
    reconcile finalPrompt2 userText fileId (Msg.system finalPrompt1 :: tail1) =
      Msg.system finalPrompt2 :: tail1 := by
  have hfilter : (Msg.system finalPrompt1 :: tail1).filter
      (fun m => ! isSystemMsg m) = tail1 := by
    rw [List.filter_cons_of_neg (by simp [isSystemMsg, Msg.role])]
    exact List.filter_eq_self.mpr (fun a ha => by
      have := List.countP_eq_zero.mp hnosys a ha
      simpa using this)
  have hidx2 : findLastIdx isUserMsg (Msg.system finalPrompt2 ::
      (Msg.system finalPrompt1 :: tail1).filter (fun m => ! isSystemMsg m)) =
      some (j + 1) := by
    rw [hfilter, findLastIdx, hj]
  rw [reconcile_eq_set finalPrompt2 userText fileId (by simp) hidx2]
  rw [hfilter, List.set_cons_succ, List.getD_cons_succ, hfix,
    set_getD_self _ _ _ (findLastIdx_lt_length hj)]

/-- The current user turn produced by reconciliation is always a user
message. -/
theorem reconcile_lastUser_isUser (finalPrompt userText : String)
    (fileId : Option String) (input : List Msg) :
    ∃ u, lastUser (reconcile finalPrompt userText fileId input) = some u ∧
      isUserMsg u = true := by
  by_cases hemp : input.isEmpty
  · rw [List.isEmpty_iff.mp hemp, reconcile_eq_empty]
    exact ⟨_, lastUser_two _ (newUserMsg_isUser _ _ _), newUserMsg_isUser _ _ _⟩
  · match hidx : findLastIdx isUserMsg (Msg.system finalPrompt ::
        input.filter (fun m => ! isSystemMsg m)) with
    | some idx =>
        rw [reconcile_eq_set finalPrompt userText fileId hemp hidx]
        refine ⟨updatedUserMsg userText (cleanOf userText)
          (actualIdOf fileId userText)
          ((Msg.system finalPrompt ::
            input.filter (fun m => ! isSystemMsg m)).getD idx
              (Msg.user (MsgContent.str ""))),
          ?_, updatedUserMsg_isUser _ _ _ _⟩
        unfold lastUser
        rw [lastFind_set (updatedUserMsg_isUser _ _ _ _) hidx]
    | none =>
        rw [reconcile_eq_append finalPrompt userText fileId hemp hidx]
        refine ⟨fallbackUserMsg userText fileId, ?_,
          fallbackUserMsg_isUser _ _⟩
        unfold lastUser
        rw [lastFind_append_singleton (fallbackUserMsg_isUser _ _)]

theorem isUserMsg_system (c : String) : isUserMsg (Msg.system c) = false := rfl

theorem countP_user_filter (l : List Msg) :
    (l.filter (fun m => ! isSystemMsg m)).countP (fun m => isUserMsg m) =
      l.countP (fun m => isUserMsg m) := by
  rw [List.countP_filter]
  congr 1
  funext m
  cases m <;> simp [isUserMsg, isSystemMsg, Msg.role]

/-- Reconciling a history that already holds a user message never
changes the number of user messages. -/
theorem reconcile_countP_user_second (finalPrompt userText : String)
    (fileId : Option String) {h1 : List Msg}
    (hu : ∃ m ∈ h1, isUserMsg m = true) (hne : ¬ h1.isEmpty = true) :
    (reconcile finalPrompt userText fileId h1).countP
        (fun m => isUserMsg m) =
      h1.countP (fun m => isUserMsg m) := by
  obtain ⟨m, hm, hum⟩ := hu
  have hmem : m ∈ Msg.system finalPrompt ::
      h1.filter (fun m => ! isSystemMsg m) :=
    List.mem_cons_of_mem _ (List.mem_filter.mpr
      ⟨hm, by simp [isSystemMsg_of_isUserMsg hum]⟩)
  obtain ⟨idx, hidx⟩ := findLastIdx_mem hum hmem
  rw [reconcile_eq_set finalPrompt userText fileId hne hidx]
  rw [countP_set_eq (Msg.user (MsgContent.str "")) _ idx _
    (findLastIdx_lt_length hidx)
    (by rw [findLastIdx_getD _ hidx, updatedUserMsg_isUser])]
  rw [List.countP_cons, countP_user_filter]
  simp [isUserMsg_system]

/-- Rewriting the last user entry twice with the same turn is a no-op
the second time. -/
theorem updatedParts_idem (userText : String) (ps : List Part) :
    updatedParts userText (updatedParts userText ps) =
      updatedParts userText ps := by
  match hfi : ps.findIdx? isInputText with
  | some t =>
      rw [show updatedParts userText ps = ps.set t (Part.inputText userText) by
        unfold updatedParts; rw [hfi]]
      unfold updatedParts
      rw [findIdxOptSetSelf rfl hfi]
      dsimp only
      rw [List.set_set]
  | none =>
      rw [show updatedParts userText ps = ps ++ [Part.inputText userText] by
        unfold updatedParts; rw [hfi]]
      unfold updatedParts
      rw [findIdxOptAppendLast rfl hfi]
      dsimp only
      rw [set_append_length]

theorem updatedUserMsg_idem (userText cleanUserInput : String)
    (actualFileId : Option String) {old : Msg}
    (hold : isUserMsg old = true) :
    updatedUserMsg userText cleanUserInput actualFileId
        (updatedUserMsg userText cleanUserInput actualFileId old) =
      updatedUserMsg userText cleanUserInput actualFileId old := by
  match actualFileId with
  | some f => rfl
  | none =>
      match old, hold with
      | Msg.user (MsgContent.str s), _ => rfl
      | Msg.user (MsgContent.parts ps), _ =>
          show Msg.user (MsgContent.parts
              (updatedParts userText (updatedParts userText ps))) = _
          rw [updatedParts_idem]
          rfl

/-- The empty-history user message is already in canonical form. -/
theorem newUserMsg_fix (userText : String) (fileId : Option String) :
    updatedUserMsg userText (cleanOf userText) (actualIdOf fileId userText)
        (newUserMsg userText (actualIdOf fileId userText) (cleanOf userText)) =
      newUserMsg userText (actualIdOf fileId userText) (cleanOf userText) := by
  match hact : actualIdOf fileId userText with
  | some f => rfl
  | none => rfl

/-- Without an inline marker, the fallback user message is already in
canonical form too. -/
theorem fallbackUserMsg_fix (userText : String) (fileId : Option String)
    (hext : extractFileIdFromContent userText = none) :
    updatedUserMsg userText (cleanOf userText) (actualIdOf fileId userText)
        (fallbackUserMsg userText fileId) =
      fallbackUserMsg userText fileId := by
  have hclean := cleanOf_of_none hext
  have hact : actualIdOf fileId userText = jsOrId fileId none := by
    unfold actualIdOf
    rw [hext]
  rw [hclean, hact]
  match fileId with
  | none => rfl
  | some f =>
      by_cases hf : f = ""
      · subst hf
        rfl
      · have h1 : jsOrId (some f) none = some f := by
          unfold jsOrId
          dsimp only
          rw [if_neg hf]
        have h2 : fallbackUserMsg userText (some f) =
            Msg.user (MsgContent.parts
              [Part.inputFile f, Part.inputText userText]) := by
          unfold fallbackUserMsg
          dsimp only
          rw [if_neg hf]
        rw [h1, h2]
        rfl

/-- C8 (counterexample): with a non-empty history that holds no
user-role message, an explicit fileRef and an inline marker, the stored
user turn keeps the raw text — the marker is not stripped, contradicting
the claim (the explicit id is still used for the file part). -/
theorem c8_counterexample :
    lastUser (reconcile "p" "[File attached: abc] hello" (some "xyz")
        [Msg.assistant "hi"]) =
      some (Msg.user (MsgContent.parts [Part.inputFile "xyz",
        Part.inputText "[File attached: abc] hello"])) ∧
    stripMarker "[File attached: abc] hello" = "hello" ∧
    ¬ "[File attached: abc] hello" = "hello" := by
  refine ⟨?_, ?_, ?_⟩
  · decide
  · decide
  · decide

/-- C8 (amended): when both an explicit non-empty fileRef and an inline
marker are present, the stored user-turn file part always carries the
explicit parameter's id; the visible text is the marker-stripped text
whenever the history is empty or contains a user-role message (in the
branch where a non-empty history has no user entry, the raw text is
stored instead). -/
theorem c8_explicit_fileRef_precedence (finalPrompt userText f ext : String)
    (input : List Msg) (hf : ¬ f = "")
    (hext : extractFileIdFromContent userText = some ext) :
    ∃ txt, lastUser (reconcile finalPrompt userText (some f) input) =
        some (Msg.user (MsgContent.parts
          [Part.inputFile f, Part.inputText txt])) ∧
      ((input = [] ∨ ∃ m ∈ input, isUserMsg m = true) →
        txt = stripMarker userText) := by
  have hact : actualIdOf (some f) userText = some f := actualIdOf_some hf userText
  have hclean : cleanOf userText = stripMarker userText := cleanOf_of_extract hext
  by_cases hemp : input.isEmpty
  · refine ⟨stripMarker userText, ?_, fun _ => rfl⟩
    rw [List.isEmpty_iff.mp hemp, reconcile_eq_empty, hact, hclean]
    rw [lastUser_two _ (newUserMsg_isUser _ _ _)]
    rfl
  · match hidx : findLastIdx isUserMsg (Msg.system finalPrompt ::
        input.filter (fun m => ! isSystemMsg m)) with
    | some idx =>
        refine ⟨stripMarker userText, ?_, fun _ => rfl⟩
        rw [reconcile_eq_set finalPrompt userText (some f) hemp hidx]
        unfold lastUser
        rw [lastFind_set (updatedUserMsg_isUser _ _ _ _) hidx]
        rw [hact, hclean]
        rfl
    | none =>
        refine ⟨userText, ?_, ?_⟩
        · rw [reconcile_eq_append finalPrompt userText (some f) hemp hidx]
          unfold lastUser
          rw [lastFind_append_singleton (fallbackUserMsg_isUser _ _)]
          unfold fallbackUserMsg
          dsimp only
          rw [if_neg hf]
        · intro hcond
          exfalso
          rcases hcond with hempty | ⟨m, hm, hum⟩
          · exact hemp (by rw [hempty]; rfl)
          · have hmem : m ∈ Msg.system finalPrompt ::
                input.filter (fun m => ! isSystemMsg m) :=
              List.mem_cons_of_mem _ (List.mem_filter.mpr
                ⟨hm, by simp [isSystemMsg_of_isUserMsg hum]⟩)
            obtain ⟨k, hk⟩ := findLastIdx_mem hum hmem
            rw [hk] at hidx
            cases hidx

/-- C9 (counterexample): starting from a history with no user message,
reconciling the same marker-bearing user text twice changes the stored
user-turn content (the first pass stores the raw text as a string, the
second rewrites it to a file-plus-stripped-text part array), so the
claimed idempotence fails as stated. -/
theorem c9_counterexample :
    lastUser (reconcile "p" "[File attached: a] hi" none
        [Msg.assistant "x"]) =
      some (Msg.user (MsgContent.str "[File attached: a] hi")) ∧
    lastUser (reconcile "p" "[File attached: a] hi" none
        (reconcile "p" "[File attached: a] hi" none [Msg.assistant "x"])) =
      some (Msg.user (MsgContent.parts
        [Part.inputFile "a", Part.inputText "hi"])) ∧
    ¬ ((reconcile "p" "[File attached: a] hi" none
          (reconcile "p" "[File attached: a] hi" none
            [Msg.assistant "x"])).countP (fun m => isUserMsg m) =
        (reconcile "p" "[File attached: a] hi" none
          [Msg.assistant "x"]).countP (fun m => isUserMsg m) ∧
      lastUser (reconcile "p" "[File attached: a] hi" none
          (reconcile "p" "[File attached: a] hi" none [Msg.assistant "x"])) =
        lastUser (reconcile "p" "[File attached: a] hi" none
          [Msg.assistant "x"])) := by
  refine ⟨?_, ?_, ?_⟩
  · decide
  · decide
  · decide

/-- C9 (amended): applying the reconciliation step twice in a row with
the same user text and file reference never changes the number of
user-role messages; and the content of the current user turn is also
unchanged provided the original history was empty, or already contained
a user-role message, or the user text carries no inline file marker.
(In the remaining corner — a non-empty history without a user message
and a marker-bearing text — the second pass rewrites the turn into its
canonical file-part form, which the first pass did not produce.) -/
theorem c9_user_turn_idempotence (finalPrompt1 finalPrompt2 userText : String)
    (fileId : Option String) (input : List Msg) :
    (reconcile finalPrompt2 userText fileId
        (reconcile finalPrompt1 userText fileId input)).countP
        (fun m => isUserMsg m) =
      (reconcile finalPrompt1 userText fileId input).countP
        (fun m => isUserMsg m) ∧
    ((input = [] ∨ (∃ m ∈ input, isUserMsg m = true) ∨
        extractFileIdFromContent userText = none) →
      lastUser (reconcile finalPrompt2 userText fileId
          (reconcile finalPrompt1 userText fileId input)) =
        lastUser (reconcile finalPrompt1 userText fileId input)) := by
  constructor
  · obtain ⟨tail1, hshape, _⟩ :=
      reconcile_system_shape finalPrompt1 userText fileId input
    have hne1 : ¬ (reconcile finalPrompt1 userText fileId input).isEmpty
        = true := by
      rw [hshape]
      simp
    obtain ⟨u, hu, huu⟩ :=
      reconcile_lastUser_isUser finalPrompt1 userText fileId input
    have humem : u ∈ reconcile finalPrompt1 userText fileId input :=
      List.mem_reverse.mp (List.mem_of_find?_eq_some hu)
    exact reconcile_countP_user_second finalPrompt2 userText fileId
      ⟨u, humem, huu⟩ hne1
  · intro hcond
    by_cases hemp : input.isEmpty
    · rw [List.isEmpty_iff.mp hemp, reconcile_eq_empty]
      rw [reconcile_second_swap_head finalPrompt2 userText fileId finalPrompt1
        (countP_system_single_user (newUserMsg_isUser _ _ _))
        (findLastIdx_singleton (newUserMsg_isUser _ _ _))
        (newUserMsg_fix userText fileId)]
      rw [lastUser_cons_system, lastUser_cons_system]
    · match hidx : findLastIdx isUserMsg (Msg.system finalPrompt1 ::
          input.filter (fun m => ! isSystemMsg m)) with
      | some idx =>
          have hgetD := findLastIdx_getD (Msg.user (MsgContent.str "")) hidx
          match idx, hidx, hgetD with
          | 0, hidx, hgetD => simp [isUserMsg, Msg.role] at hgetD
          | j + 1, hidx, hgetD =>
              rw [reconcile_eq_set finalPrompt1 userText fileId hemp hidx,
                List.set_cons_succ]
              have hjB : findLastIdx isUserMsg
                  ((input.filter (fun m => ! isSystemMsg m)).set j
                    (updatedUserMsg userText (cleanOf userText)
                      (actualIdOf fileId userText)
                      ((Msg.system finalPrompt1 ::
                        input.filter (fun m => ! isSystemMsg m)).getD (j + 1)
                          (Msg.user (MsgContent.str ""))))) = some j :=
                findLastIdx_set (updatedUserMsg_isUser _ _ _ _)
                  (findLastIdx_cons_succ_inv hidx)
              have hnosysB : ((input.filter (fun m => ! isSystemMsg m)).set j
                  (updatedUserMsg userText (cleanOf userText)
                    (actualIdOf fileId userText)
                    ((Msg.system finalPrompt1 ::
                      input.filter (fun m => ! isSystemMsg m)).getD (j + 1)
                        (Msg.user (MsgContent.str ""))))).countP
                  (fun m => isSystemMsg m) = 0 := by
                rw [List.countP_eq_zero]
                intro a ha
                rcases List.mem_or_eq_of_mem_set ha with hmem | heq
                · have := List.of_mem_filter hmem
                  simpa using this
                · subst heq
                  rw [isSystemMsg_of_isUserMsg (updatedUserMsg_isUser _ _ _ _)]
                  simp
              rw [reconcile_second_swap_head finalPrompt2 userText fileId
                finalPrompt1 hnosysB hjB
                (by
                  rw [getD_set_self _ _ _ _
                    (findLastIdx_lt_length (findLastIdx_cons_succ_inv hidx))]
                  exact updatedUserMsg_idem userText (cleanOf userText)
                    (actualIdOf fileId userText) hgetD)]
              rw [lastUser_cons_system, lastUser_cons_system]
      | none =>
          have hext : extractFileIdFromContent userText = none := by
            rcases hcond with h1 | h2 | h3
            · exact absurd (by rw [h1]; rfl) hemp
            · obtain ⟨m, hm, hum⟩ := h2
              have hmem : m ∈ Msg.system finalPrompt1 ::
                  input.filter (fun m => ! isSystemMsg m) :=
                List.mem_cons_of_mem _ (List.mem_filter.mpr
                  ⟨hm, by simp [isSystemMsg_of_isUserMsg hum]⟩)
              obtain ⟨k, hk⟩ := findLastIdx_mem hum hmem
              rw [hk] at hidx
              cases hidx
            · exact h3
          rw [reconcile_eq_append finalPrompt1 userText fileId hemp hidx,
            List.cons_append]
          rw [reconcile_second_swap_head finalPrompt2 userText fileId
            finalPrompt1
            (by
              rw [List.countP_append, countP_isSystem_filter,
                countP_system_single_user (fallbackUserMsg_isUser _ _)])
            (findLastIdx_append_last (fallbackUserMsg_isUser _ _) _)
            (by
              rw [getD_append_length]
              exact fallbackUserMsg_fix userText fileId hext)]
          rw [lastUser_cons_system, lastUser_cons_system]

theorem filePartId_of_isInputText {p : Part} (h : isInputText p = true) :
    filePartId p = none := by
  match p, h with
  | .inputText _, _ => rfl

theorem filterMap_set_none {f : α → Option β} (d : α) :
    ∀ (l : List α) (k : Nat) (x : α), k < l.length →
      f (l.getD k d) = none → f x = none →
      (l.set k x).filterMap f = l.filterMap f := by
  intro l
  induction l with
  | nil => intro k x hk _ _; cases hk
  | cons a as ih =>
      intro k x hk h1 h2
      match k with
      | 0 =>
          rw [List.set_cons_zero, List.filterMap_cons, List.filterMap_cons]
          rw [List.getD_cons_zero] at h1
          rw [h1, h2]
      | k + 1 =>
          rw [List.set_cons_succ, List.filterMap_cons, List.filterMap_cons]
          rw [List.getD_cons_succ] at h1
          rw [ih k x (Nat.lt_of_succ_lt_succ hk) h1 h2]

theorem updatedParts_file_ids (userText : String) (ps : List Part) :
    (updatedParts userText ps).filterMap filePartId =
      ps.filterMap filePartId := by
  unfold updatedParts
  match hfi : ps.findIdx? isInputText with
  | some t =>
      obtain ⟨hlt, hP⟩ := findIdxOptGetD (Part.inputText "") hfi
      exact filterMap_set_none (Part.inputText "") ps t _ hlt
        (filePartId_of_isInputText hP) rfl
  | none =>
      rw [List.filterMap_append]
      rw [show List.filterMap filePartId [Part.inputText userText] = []
        from rfl]
      rw [List.append_nil]

/-- C10: for a non-empty history whose current user message has
parts-array content, reconciling a new turn with no explicit fileRef and
no inline marker rewrites exactly that entry in place, replacing only
its text part (or pushing one when absent); every file part — its ids in
order — survives, so a file attached in a previous turn silently remains
attached to the rewritten user turn. -/
theorem c10_file_part_persists (finalPrompt userText : String)
    (input : List Msg) (ps : List Part) (f0 : String)
    (hne : ¬ input.isEmpty = true)
    (hlast : lastUser input = some (Msg.user (MsgContent.parts ps)))
    (hext : extractFileIdFromContent userText = none)
    (hfile : Part.inputFile f0 ∈ ps) :
    ∃ idx,
      findLastIdx isUserMsg (Msg.system finalPrompt ::
        input.filter (fun m => ! isSystemMsg m)) = some idx ∧
      reconcile finalPrompt userText none input =
        (Msg.system finalPrompt ::
          input.filter (fun m => ! isSystemMsg m)).set idx
            (Msg.user (MsgContent.parts (updatedParts userText ps))) ∧
      (updatedParts userText ps).filterMap filePartId =
        ps.filterMap filePartId ∧
      Part.inputFile f0 ∈ updatedParts userText ps := by
  have humem : Msg.user (MsgContent.parts ps) ∈ input :=
    List.mem_reverse.mp (List.mem_of_find?_eq_some hlast)
  have hmem : Msg.user (MsgContent.parts ps) ∈ Msg.system finalPrompt ::
      input.filter (fun m => ! isSystemMsg m) :=
    List.mem_cons_of_mem _ (List.mem_filter.mpr ⟨humem, by simp [isSystemMsg, Msg.role]⟩)
  obtain ⟨idx, hidx⟩ := findLastIdx_mem
    (show isUserMsg (Msg.user (MsgContent.parts ps)) = true from rfl) hmem
  have hfind : (Msg.system finalPrompt ::
      input.filter (fun m => ! isSystemMsg m)).reverse.find? isUserMsg =
      some ((Msg.system finalPrompt ::
        input.filter (fun m => ! isSystemMsg m)).getD idx
          (Msg.user (MsgContent.str ""))) :=
    findLastIdx_getD_eq_find _ hidx
  have hfind2 : (Msg.system finalPrompt ::
      input.filter (fun m => ! isSystemMsg m)).reverse.find? isUserMsg =
      some (Msg.user (MsgContent.parts ps)) := by
    show lastUser (Msg.system finalPrompt ::
      input.filter (fun m => ! isSystemMsg m)) = _
    rw [lastUser_cons_system, lastUser_filter, hlast]
  have hgetD : (Msg.system finalPrompt ::
      input.filter (fun m => ! isSystemMsg m)).getD idx
        (Msg.user (MsgContent.str "")) = Msg.user (MsgContent.parts ps) := by
    rw [hfind] at hfind2
    injection hfind2 with h
  refine ⟨idx, hidx, ?_, updatedParts_file_ids userText ps, ?_⟩
  · rw [reconcile_eq_set finalPrompt userText none hne hidx]
    rw [hgetD]
    rw [show actualIdOf none userText = none by rw [actualIdOf_none, hext]]
    rfl
  · have hin : f0 ∈ (updatedParts userText ps).filterMap filePartId := by
      rw [updatedParts_file_ids]
      exact List.mem_filterMap.mpr ⟨Part.inputFile f0, hfile, rfl⟩
    obtain ⟨part, hpmem, hpid⟩ := List.mem_filterMap.mp hin
    match part, hpid with
    | .inputFile i, hpid =>
        injection hpid with hpid
        rw [← hpid]
        exact hpmem

/-! ## Witnesses -/

/-- Witness for C3: with every response a single well-formed function
call, the loop performs exactly three completion-service calls. -/
theorem c3_bounded_termination_witness :
    (run sampleEnv "hi" [] none).2 ≤ MAX_AGENT_LOOP ∧
    (run sampleEnv "hi" [] none).2 = 3 := by
  have h := c3_bounded_termination sampleEnv "hi" [] none
  refine ⟨h.1, ?_⟩
  refine (h.2 ?_).1
  intro k item hmem
  rw [show sampleEnv.responses k =
    [OutputItem.functionCall "call-1" "foo" "\x7b\x7d"] from rfl] at hmem
  rw [List.mem_singleton] at hmem
  subst hmem
  exact ⟨"call-1", "foo", "\x7b\x7d", rfl, Json.obj [], rfl, rfl⟩

/-- Witness for C4 at a concrete one-call response. -/
theorem c4_ordering_preservation_witness :
    ∃ d, [Msg.user (MsgContent.str "hi"),
          Msg.functionCall "call-1" "foo" "\x7b\x7d",
          Msg.functionCallOutput "call-1" "ERROR: tool foo not implemented."] =
        [Msg.user (MsgContent.str "hi")] ++
          invocationEntries
            [OutputItem.functionCall "call-1" "foo" "\x7b\x7d"] ++ d ∧
      d.filter isInvocationEntry = [] ∧
      resultCallIds d =
        fcCallIds [OutputItem.functionCall "call-1" "foo" "\x7b\x7d"] :=
  c4_ordering_preservation sampleEnv [Msg.user (MsgContent.str "hi")] true
    [OutputItem.functionCall "call-1" "foo" "\x7b\x7d"]
    [Msg.user (MsgContent.str "hi"),
      Msg.functionCall "call-1" "foo" "\x7b\x7d",
      Msg.functionCallOutput "call-1" "ERROR: tool foo not implemented."]
    true rfl

/-- Witness for C5 at a concrete unregistered call. -/
theorem c5_unregistered_tool_soft_fail_witness :
    handleOutput sampleEnv (OutputItem.functionCall "call-1" "foo" "null")
        true =
      .ok ([Msg.functionCallOutput "call-1"
            "ERROR: tool foo not implemented."], true) :=
  c5_unregistered_tool_soft_fail sampleEnv "call-1" "foo" "null" true
    Json.null rfl (by decide)

/-- Witness for C6: a malformed arguments payload makes `run` throw. -/
theorem c6_malformed_arguments_raise_witness :
    ∃ e, (run badArgsEnv "hi" [] none).1 = .error e := by
  have h := c6_malformed_arguments_raise badArgsEnv "call-1" "foo" "oops" rfl
  refine h.2 "hi" none [] ?_
  rw [show badArgsEnv.responses 0 =
    [OutputItem.functionCall "call-1" "foo" "oops"] from rfl]
  exact List.mem_singleton.mpr rfl

/-- Witness for C7 against the always-throwing client. -/
theorem c7_provider_failure_soft_witness :
    cancelMeeting sampleEnv.client
        { eventId := Json.str "evt_1", sendUpdates := Json.undefined } =
      "❌ Error cancelling meeting: network error" ∧
    handleOutput sampleEnv
        (OutputItem.functionCall "call-1" "cancel_meeting" "\x7b\x7d") true =
      .ok ([Msg.functionCallOutput "call-1"
            "❌ Error cancelling meeting: network error"], true) := by
  have h := c7_provider_failure_soft sampleEnv "network error"
    (fun x y => rfl) (fun r => rfl) (fun a b c => rfl)
  constructor
  · rw [h.1]
    rfl
  · rw [h.2.2.2.2.2 "call-1" "\x7b\x7d" (Json.obj []) true rfl rfl]
    rfl

/-- Witness for the amended C8 at a concrete history with a user
turn. -/
theorem c8_explicit_fileRef_precedence_witness :
    ∃ txt, lastUser (reconcile "p" "[File attached: abc] hello" (some "xyz")
        [Msg.user (MsgContent.str "old")]) =
        some (Msg.user (MsgContent.parts
          [Part.inputFile "xyz", Part.inputText txt])) ∧
      (([Msg.user (MsgContent.str "old")] = ([] : List Msg) ∨
          ∃ m ∈ [Msg.user (MsgContent.str "old")], isUserMsg m = true) →
        txt = stripMarker "[File attached: abc] hello") :=
  c8_explicit_fileRef_precedence "p" "[File attached: abc] hello" "xyz" "abc"
    [Msg.user (MsgContent.str "old")] (by decide) (by decide)

/-- Witness for the amended C9 at an empty starting history. -/
theorem c9_user_turn_idempotence_witness :
    (reconcile "q" "hello" none (reconcile "p" "hello" none [])).countP
        (fun m => isUserMsg m) =
      (reconcile "p" "hello" none []).countP (fun m => isUserMsg m) ∧
    lastUser (reconcile "q" "hello" none (reconcile "p" "hello" none [])) =
      lastUser (reconcile "p" "hello" none []) := by
  have h := c9_user_turn_idempotence "p" "q" "hello" none []
  exact ⟨h.1, h.2 (Or.inl rfl)⟩

/-- Witness for C10 at a concrete parts-array user turn. -/
theorem c10_file_part_persists_witness :
    ∃ idx,
      findLastIdx isUserMsg (Msg.system "p" ::
        ([Msg.user (MsgContent.parts
          [Part.inputFile "f1", Part.inputText "old"])]).filter
            (fun m => ! isSystemMsg m)) = some idx ∧
      reconcile "p" "new" none
          [Msg.user (MsgContent.parts
            [Part.inputFile "f1", Part.inputText "old"])] =
        (Msg.system "p" ::
          ([Msg.user (MsgContent.parts
            [Part.inputFile "f1", Part.inputText "old"])]).filter
              (fun m => ! isSystemMsg m)).set idx
            (Msg.user (MsgContent.parts
              (updatedParts "new" [Part.inputFile "f1", Part.inputText "old"]))) ∧
      (updatedParts "new"
          [Part.inputFile "f1", Part.inputText "old"]).filterMap filePartId =
        ([Part.inputFile "f1", Part.inputText "old"]).filterMap filePartId ∧
      Part.inputFile "f1" ∈
        updatedParts "new" [Part.inputFile "f1", Part.inputText "old"] :=
  c10_file_part_persists "p" "new"
    [Msg.user (MsgContent.parts [Part.inputFile "f1", Part.inputText "old"])]
    [Part.inputFile "f1", Part.inputText "old"] "f1"
    (by decide) (by decide) (by decide) (by decide)

end GlassEngine

